import Mathlib

/-!
Shallow embedding of the smartcomplete Go library (cache, rate limiter,
context assembler, prompt formatter, orchestrator) and proofs about the
spec's claims.  Go machine integers are modelled as `Int` (timestamps and
durations in nanoseconds, counters, token counts), Go strings as Lean
`String`, Go maps as association lists with unique keys maintained by
`mapInsert`.  Every `time.Now()` reading taken during one call is modelled
by an explicit `now : Int` parameter.
-/

set_option maxRecDepth 4000

namespace Smartcomplete

/-! ### Go map model: association lists -/

/-- Lookup in a Go map modelled as an association list. -/
def mapLookup {α : Type} : List (String × α) → String → Option α
  | [], _ => none
  | (k', v) :: rest, k => if k' = k then some v else mapLookup rest k

/-- `m[k] = v` on a Go map: replace the binding in place or append a new one. -/
def mapInsert {α : Type} : List (String × α) → String → α → List (String × α)
  | [], k, v => [(k, v)]
  | (k', v') :: rest, k, v =>
    if k' = k then (k, v) :: rest else (k', v') :: mapInsert rest k v

/-- `delete(m, k)` on a Go map (keys are unique, so this removes at most one
live binding). -/
def mapErase {α : Type} : List (String × α) → String → List (String × α)
  | [], _ => []
  | (k', v') :: rest, k =>
    if k' = k then mapErase rest k else (k', v') :: mapErase rest k

/-! ### errors.go -/

/-- Go `error` values that the library creates: the nine sentinel errors of
errors.go, `fmt.Errorf` without a cause, `fmt.Errorf` wrapping a cause with
`%w`, and the structured `CompletionError`. -/
inductive GoError where
  | fileNotAuthorized
  | projectNotFound
  | rateLimitExceeded
  | contextTooLarge
  | llmTimeout
  | invalidRequest
  | cacheMiss
  | fileNotFound
  | invalidConfig
  | errorf (msg : String)
  | wrap (msg : String) (cause : GoError)
  | nilError
  | completionError (code : String) (message : String) (cause : GoError)
deriving DecidableEq, Repr

/-- errors.go `NewCompletionError`; a nil `err` argument is `GoError.nilError`. -/
def NewCompletionError (code message : String) (err : GoError) : GoError :=
  GoError.completionError code message err

/-- errors.go `WrapRateLimitError` (code `RATE_LIMIT`). -/
def WrapRateLimitError (message : String) (err : GoError) : GoError :=
  NewCompletionError "RATE_LIMIT" message err

/-! ### completion.go data types -/

/-- completion.go `CompletionRequest`. -/
structure CompletionRequest where
  ProjectID : String
  FilePath : String
  CursorLine : Int
  CursorColumn : Int
  LLM : String
  MaxTokens : Int
  ContextFiles : List String
  Temperature : Rat
deriving DecidableEq, Repr

/-- completion.go `CompletionResponse`. -/
structure CompletionResponse where
  Completion : String
  LatencyMs : Int
  Model : String
  TokensUsed : Int
  CachedResult : Bool
  Timestamp : Int
deriving DecidableEq, Repr

/-! ### SHA-256 (crypto/sha256, used by cache.go `hashContent`) -/

/-- UTF-8 encoding of one character, as Go's `[]byte(string)` produces it. -/
def utf8Encode (c : Char) : List Nat :=
  let n := c.toNat
  if n < 128 then [n]
  else if n < 2048 then [192 + n / 64, 128 + n % 64]
  else if n < 65536 then [224 + n / 4096, 128 + (n / 64) % 64, 128 + n % 64]
  else [240 + n / 262144, 128 + (n / 4096) % 64, 128 + (n / 64) % 64, 128 + n % 64]

/-- The bytes of a Go string. -/
def strBytes (s : String) : List Nat :=
  s.data.foldr (fun c acc => utf8Encode c ++ acc) []

/-- Truncation to a 32-bit word. -/
def w32 (n : Nat) : Nat := n % 4294967296

/-- 32-bit rotate right. -/
def rotr32 (k x : Nat) : Nat := x / 2 ^ k + x % 2 ^ k * 2 ^ (32 - k)

def shaCh (x y z : Nat) : Nat := (x &&& y) ^^^ ((4294967295 - x) &&& z)

def shaMaj (x y z : Nat) : Nat := (x &&& y) ^^^ (x &&& z) ^^^ (y &&& z)

def bigSigma0 (x : Nat) : Nat := rotr32 2 x ^^^ rotr32 13 x ^^^ rotr32 22 x

def bigSigma1 (x : Nat) : Nat := rotr32 6 x ^^^ rotr32 11 x ^^^ rotr32 25 x

def smallSigma0 (x : Nat) : Nat := rotr32 7 x ^^^ rotr32 18 x ^^^ x / 2 ^ 3

def smallSigma1 (x : Nat) : Nat := rotr32 17 x ^^^ rotr32 19 x ^^^ x / 2 ^ 10

/-- The 64 SHA-256 round constants. -/
def shaK : List Nat :=
  [1116352408, 1899447441, 3049323471, 3921009573,
   961987163, 1508970993, 2453635748, 2870763221,
   3624381080, 310598401, 607225278, 1426881987,
   1925078388, 2162078206, 2614888103, 3248222580,
   3835390401, 4022224774, 264347078, 604807628,
   770255983, 1249150122, 1555081692, 1996064986,
   2554220882, 2821834349, 2952996808, 3210313671,
   3336571891, 3584528711, 113926993, 338241895,
   666307205, 773529912, 1294757372, 1396182291,
   1695183700, 1986661051, 2177026350, 2456956037,
   2730485921, 2820302411, 3259730800, 3345764771,
   3516065817, 3600352804, 4094571909, 275423344,
   430227734, 506948616, 659060556, 883997877,
   958139571, 1322822218, 1537002063, 1747873779,
   1955562222, 2024104815, 2227730452, 2361852424,
   2428436474, 2756734187, 3204031479, 3329325298]

/-- The SHA-256 initial hash value. -/
def shaH0 : List Nat :=
  [1779033703, 3144134277, 1013904242, 2773480762,
   1359893119, 2600822924, 528734635, 1541459225]

/-- Big-endian 8-byte encoding of a 64-bit length. -/
def be64 (n : Nat) : List Nat :=
  [n / 2 ^ 56 % 256, n / 2 ^ 48 % 256, n / 2 ^ 40 % 256, n / 2 ^ 32 % 256,
   n / 2 ^ 24 % 256, n / 2 ^ 16 % 256, n / 2 ^ 8 % 256, n % 256]

/-- SHA-256 padding: append 0x80, zeros, then the bit length big-endian. -/
def padMessage (msg : List Nat) : List Nat :=
  let L := msg.length
  msg ++ [128] ++ List.replicate ((119 - L % 64) % 64) 0 ++ be64 (L * 8)

/-- Big-endian packing of bytes into 32-bit words. -/
def toWords : List Nat → List Nat
  | b0 :: b1 :: b2 :: b3 :: rest =>
    (((b0 * 256 + b1) * 256 + b2) * 256 + b3) :: toWords rest
  | _ => []

/-- Extend a 16-word message schedule by `n` further words. -/
def extendW (w : List Nat) : Nat → List Nat
  | 0 => w
  | n + 1 =>
    let t := w32 (smallSigma1 (w.getD (w.length - 2) 0) + w.getD (w.length - 7) 0
      + smallSigma0 (w.getD (w.length - 15) 0) + w.getD (w.length - 16) 0)
    extendW (w ++ [t]) n

/-- One SHA-256 compression over a 16-word chunk, producing the updated
eight-word state. -/
def shaCompress (h : List Nat) (chunkWords : List Nat) : List Nat :=
  let ws := extendW chunkWords 48
  let st0 := (h.getD 0 0, h.getD 1 0, h.getD 2 0, h.getD 3 0,
              h.getD 4 0, h.getD 5 0, h.getD 6 0, h.getD 7 0)
  let st := (shaK.zip ws).foldl (fun st kw =>
    match st with
    | (a, b, c, d, e, f, g2, hh) =>
      let t1 := w32 (hh + bigSigma1 e + shaCh e f g2 + kw.1 + kw.2)
      let t2 := w32 (bigSigma0 a + shaMaj a b c)
      (w32 (t1 + t2), a, b, c, w32 (d + t1), e, f, g2)) st0
  match st with
  | (a, b, c, d, e, f, g2, hh) =>
    [w32 (h.getD 0 0 + a), w32 (h.getD 1 0 + b), w32 (h.getD 2 0 + c),
     w32 (h.getD 3 0 + d), w32 (h.getD 4 0 + e), w32 (h.getD 5 0 + f),
     w32 (h.getD 6 0 + g2), w32 (h.getD 7 0 + hh)]

/-- Split a byte list into 64-byte chunks (fuel-driven; `fuel = l.length`
always suffices since each step removes at least one byte). -/
def chunks64 : Nat → List Nat → List (List Nat)
  | 0, _ => []
  | _, [] => []
  | n + 1, l => l.take 64 :: chunks64 n (l.drop 64)

/-- The eight 32-bit words of the SHA-256 digest of a byte sequence. -/
def sha256Words (msg : List Nat) : List Nat :=
  let padded := padMessage msg
  (chunks64 padded.length padded).foldl (fun h c => shaCompress h (toWords c)) shaH0

def hexDigit (n : Nat) : Char :=
  if n < 10 then Char.ofNat (48 + n) else Char.ofNat (87 + n)

/-- Eight lowercase hex digits of one 32-bit word. -/
def word8Hex (w : Nat) : List Char :=
  [hexDigit (w / 2 ^ 28 % 16), hexDigit (w / 2 ^ 24 % 16),
   hexDigit (w / 2 ^ 20 % 16), hexDigit (w / 2 ^ 16 % 16),
   hexDigit (w / 2 ^ 12 % 16), hexDigit (w / 2 ^ 8 % 16),
   hexDigit (w / 2 ^ 4 % 16), hexDigit (w % 16)]

/-- cache.go `hashContent`: lowercase hex of the SHA-256 of the content
bytes, as `fmt.Sprintf` with the x verb prints a `[32]byte`. -/
def hashContent (content : String) : String :=
  String.mk ((sha256Words (strBytes content)).foldr (fun w acc => word8Hex w ++ acc) [])

/-! ### cache.go -/

/-- cache.go `CacheEntry`. -/
structure CacheEntry where
  Response : CompletionResponse
  CreatedAt : Int
  FileHash : String
deriving DecidableEq, Repr

/-- cache.go `Cache` (the mutex is concurrency bookkeeping with no
sequential meaning and is not modelled). -/
structure Cache where
  entries : List (String × CacheEntry)
  ttl : Int
  maxSize : Int
  enabled : Bool
deriving DecidableEq, Repr

/-- cache.go `NewCache`. -/
def NewCache (ttl : Int) (maxSize : Int) (enabled : Bool) : Cache :=
  { entries := [], ttl := ttl, maxSize := maxSize, enabled := enabled }

/-- cache.go `cacheKey`: the Sprintf format with the five fields separated
by colons. -/
def cacheKey (req : CompletionRequest) : String :=
  req.ProjectID ++ ":" ++ req.FilePath ++ ":" ++ toString req.CursorLine
    ++ ":" ++ toString req.CursorColumn ++ ":" ++ req.LLM

/-- cache.go `Cache.Get`; `now` models the `time.Now()` hidden inside
`time.Since`. -/
def Cache.Get (c : Cache) (req : CompletionRequest) (fileContent : String)
    (now : Int) : Option CompletionResponse :=
  if !c.enabled then none
  else
    match mapLookup c.entries (cacheKey req) with
    | none => none
    | some entry =>
      if now - entry.CreatedAt > c.ttl then none
      else if entry.FileHash ≠ hashContent fileContent then none
      else some entry.Response

/-- One step of the eviction scan in cache.go `Cache.Put`: take the entry
when no candidate is held yet (`oldestKey == ""`) or its creation time is
strictly before the best so far. -/
def oldStep (acc : String × Int) (p : String × CacheEntry) : String × Int :=
  if acc.1 = "" ∨ p.2.CreatedAt < acc.2 then (p.1, p.2.CreatedAt) else acc

/-- The key selected by the eviction scan in cache.go `Cache.Put`, starting
from the zero values (the list order stands in for Go's map iteration
order, which only affects tie-breaking). -/
def findOldestKey (entries : List (String × CacheEntry)) : String :=
  (entries.foldl oldStep ("", 0)).1

/-- cache.go `Cache.Put`; `now` models the `time.Now()` stored in the entry. -/
def Cache.Put (c : Cache) (req : CompletionRequest) (fileContent : String)
    (resp : CompletionResponse) (now : Int) : Cache :=
  if !c.enabled then c
  else
    let entries :=
      if c.entries.length > 1000 then
        let oldestKey := findOldestKey c.entries
        if oldestKey ≠ "" then mapErase c.entries oldestKey else c.entries
      else c.entries
    let newEntry : CacheEntry :=
      { Response := resp, CreatedAt := now, FileHash := hashContent fileContent }
    { c with entries := mapInsert entries (cacheKey req) newEntry }

/-! ### ratelimit.go -/

/-- ratelimit.go `RequestCount`. -/
structure RequestCount where
  Minute : Int
  Hour : Int
  LastMinuteReset : Int
  LastHourReset : Int
deriving DecidableEq, Repr

/-- ratelimit.go `RateLimiter` (mutex not modelled). -/
structure RateLimiter where
  requestCounts : List (String × RequestCount)
deriving DecidableEq, Repr

/-- ratelimit.go `NewRateLimiter`. -/
def NewRateLimiter : RateLimiter := { requestCounts := [] }

/-- `time.Minute` in nanoseconds. -/
def minuteNs : Int := 60000000000

/-- `time.Hour` in nanoseconds. -/
def hourNs : Int := 3600000000000

/-- ratelimit.go `RateLimiter.CheckLimit`: lazily create the counter, reset
windows whose elapsed time reached their length, reject on a reached
threshold without incrementing, otherwise increment both counters.  The
returned limiter carries the (created / reset / incremented) counter, as
the Go code mutates it through the stored pointer. -/
def RateLimiter.CheckLimit (r : RateLimiter) (projectID : String)
    (maxPerMin maxPerHour : Int) (now : Int) : RateLimiter × Option GoError :=
  let count :=
    match mapLookup r.requestCounts projectID with
    | some c => c
    | none => { Minute := 0, Hour := 0, LastMinuteReset := now, LastHourReset := now }
  let count :=
    if now - count.LastMinuteReset ≥ minuteNs then
      { count with Minute := 0, LastMinuteReset := now }
    else count
  let count :=
    if now - count.LastHourReset ≥ hourNs then
      { count with Hour := 0, LastHourReset := now }
    else count
  if count.Minute ≥ maxPerMin then
    ({ requestCounts := mapInsert r.requestCounts projectID count },
     some (WrapRateLimitError "per-minute rate limit exceeded" GoError.rateLimitExceeded))
  else if count.Hour ≥ maxPerHour then
    ({ requestCounts := mapInsert r.requestCounts projectID count },
     some (WrapRateLimitError "per-hour rate limit exceeded" GoError.rateLimitExceeded))
  else
    let bumped : RequestCount :=
      { count with Minute := count.Minute + 1, Hour := count.Hour + 1 }
    ({ requestCounts := mapInsert r.requestCounts projectID bumped }, none)

/-- ratelimit.go `RateLimiter.Reset`. -/
def RateLimiter.Reset (r : RateLimiter) (projectID : String) : RateLimiter :=
  { requestCounts := mapErase r.requestCounts projectID }

/-! ### config.go -/

/-- config.go `Config`; durations are nanoseconds, `Temperature` is the
float64 field modelled as a rational. -/
structure Config where
  DefaultLLM : String
  MaxTokens : Int
  Temperature : Rat
  RequestTimeout : Int
  MaxContextTokens : Int
  IncludeAgentsFile : Bool
  IncludeDiscussion : Bool
  MaxDiscussionRounds : Int
  EnableCache : Bool
  CacheTTL : Int
  MaxCacheSize : Int
  MaxRequestsPerMinute : Int
  MaxRequestsPerHour : Int
deriving DecidableEq, Repr

/-- config.go `DefaultConfig`. -/
def DefaultConfig : Config :=
  { DefaultLLM := "sonar-deep-research"
    MaxTokens := 500
    Temperature := 0.2
    RequestTimeout := 30000000000
    MaxContextTokens := 10000
    IncludeAgentsFile := true
    IncludeDiscussion := true
    MaxDiscussionRounds := 3
    EnableCache := true
    CacheTTL := 300000000000
    MaxCacheSize := 104857600
    MaxRequestsPerMinute := 10
    MaxRequestsPerHour := 50 }

/-- config.go `Config.Validate`: `none` is a nil error. -/
def Config.Validate (c : Config) : Option GoError :=
  if c.DefaultLLM = "" then some (GoError.errorf "default_llm cannot be empty")
  else if c.MaxTokens ≤ 0 then some (GoError.errorf "max_tokens must be positive")
  else if c.Temperature < 0 ∨ c.Temperature > 2 then
    some (GoError.errorf "temperature must be between 0 and 2")
  else if c.MaxContextTokens ≤ 0 then
    some (GoError.errorf "max_context_tokens must be positive")
  else if c.MaxRequestsPerMinute ≤ 0 then
    some (GoError.errorf "max_requests_per_minute must be positive")
  else if c.MaxRequestsPerHour ≤ 0 then
    some (GoError.errorf "max_requests_per_hour must be positive")
  else none

/-! ### path/filepath (standard library calls made by the source, Unix rules) -/

/-- `filepath.IsAbs` on Unix: the path begins with a separator. -/
def pathIsAbs (p : String) : Bool :=
  match p.data with
  | [] => false
  | c :: _ => c == '/'

/-- Split a character list at every occurrence of a separator (the
`strings.Split` semantics specialised to a one-character separator). -/
def splitOnChar (sep : Char) : List Char → List (List Char)
  | [] => [[]]
  | c :: cs =>
    if c = sep then [] :: splitOnChar sep cs
    else
      match splitOnChar sep cs with
      | l :: ls => (c :: l) :: ls
      | [] => [[c]]

/-- One step of the `..` resolution of `filepath.Clean`, over the reversed
stack of components kept so far. -/
def cleanStep (rooted : Bool) (st : List String) (c : String) : List String :=
  if c = ".." then
    match st with
    | [] => if rooted then [] else [".."]
    | top :: rest => if top = ".." then c :: st else rest
  else c :: st

/-- `filepath.Clean` on Unix: drop empty and `.` components, resolve `..`
lexically, keep rootedness, return `.` for an empty result. -/
def pathClean (path : String) : String :=
  if path = "" then "."
  else
    let rooted := pathIsAbs path
    let comps := ((splitOnChar '/' path.data).map String.mk).filter
      (fun c => c ≠ "" ∧ c ≠ ".")
    let body := String.intercalate "/" (comps.foldl (cleanStep rooted) []).reverse
    if rooted then (if body = "" then "/" else "/" ++ body)
    else (if body = "" then "." else body)

/-- `filepath.Join` of two elements: non-empty elements joined by a
separator, then cleaned; all-empty gives the empty string. -/
def pathJoin (a b : String) : String :=
  if a = "" ∧ b = "" then ""
  else if a = "" then pathClean b
  else if b = "" then pathClean a
  else pathClean (a ++ "/" ++ b)

/-- `filepath.Dir`: everything up to and including the final separator,
cleaned; `.` when there is no separator. -/
def pathDir (p : String) : String :=
  let chars := p.data
  match (chars.reverse).findIdx? (fun c => c = '/') with
  | none => pathClean ""
  | some k => pathClean (String.mk (chars.take (chars.length - k)))

/-- `filepath.Ext`: the suffix starting at the final dot in the final
element, empty when that element has no dot. -/
def pathExt (p : String) : String :=
  let seg := (p.data.reverse).takeWhile (fun c => c ≠ '/')
  match seg.findIdx? (fun c => c = '.') with
  | none => ""
  | some k => String.mk ((seg.take (k + 1)).reverse)

/-! ### context.go -/

/-- context.go `FileContext`. -/
structure FileContext where
  Path : String
  Content : String
deriving DecidableEq, Repr

/-- completion.go `ProjectGetter`: each method returns a value and a Go
error, modelled as the pair the Go caller receives (`none` is a nil error). -/
structure ProjectGetter where
  GetProjectBaseDir : String → String × Option GoError
  GetProjectAuthorizedFiles : String → List String × Option GoError
  GetProjectDiscussionFile : String → String × Option GoError
  ReadFile : String → String × Option GoError

/-- context.go `CompletionContext`. -/
structure CompletionContext where
  Prefix : String
  Suffix : String
  AgentsInstructions : String
  DiscussionContext : String
  AdditionalFiles : List FileContext
  Language : String
deriving DecidableEq, Repr

/-- context.go `ContextGatherer`. -/
structure ContextGatherer where
  maxTokens : Int
deriving DecidableEq, Repr

/-- Go string slicing `s[:n]` (indices are bytes in Go, characters here;
the two coincide on ASCII content). -/
def strTake (s : String) (n : Nat) : String := String.mk (s.data.take n)

/-- Go string slicing `s[n:]`. -/
def strDrop (s : String) (n : Nat) : String := String.mk (s.data.drop n)

/-- `strings.Split(content, newline)` over the character list: every
separator splits, and the result is never empty. -/
def splitNl : List Char → List (List Char)
  | [] => [[]]
  | c :: cs =>
    if c = '\n' then [] :: splitNl cs
    else
      match splitNl cs with
      | l :: ls => (c :: l) :: ls
      | [] => [[c]]

/-- The `strings.Split(content, newline)` call of `extractPrefixSuffix`. -/
def contentLines (content : String) : List String :=
  (splitNl content.data).map (fun l => String.mk l)

/-- The line clamp of `extractPrefixSuffix`: into `[0, lineCount-1]`. -/
def clampLine (lines : List String) (line : Int) : Nat :=
  let line := if line < 0 then 0 else line
  let line := if line ≥ (lines.length : Int) then (lines.length : Int) - 1 else line
  line.toNat

/-- The column clamp of `extractPrefixSuffix`: to non-negative. -/
def clampCol (col : Int) : Nat := (if col < 0 then 0 else col).toNat

/-- context.go `extractPrefixSuffix`: clamp the cursor, join the lines above
the cursor line (plus its partial text when the column falls inside it),
and symmetrically for the suffix. -/
def extractPrefixSuffix (content : String) (line col : Int) : String × String :=
  let lines := contentLines content
  let l := clampLine lines line
  let c := clampCol col
  let cursorLine := lines.getD l ""
  let inLine := decide (l < lines.length) && decide (c < cursorLine.length)
  let prefixLines := lines.take l ++ (if inLine then [strTake cursorLine c] else [])
  let suffixLines := (if inLine then [strDrop cursorLine c] else [])
    ++ (if l + 1 < lines.length then lines.drop (l + 1) else [])
  (String.intercalate "\n" prefixLines, String.intercalate "\n" suffixLines)

/-- completion.go `resolveFilePath`. -/
def resolveFilePath (baseDir filePath : String) : String :=
  if pathIsAbs filePath then filePath else pathJoin baseDir filePath

/-- The upward directory walk of context.go `gatherAgentsInstructions`,
collecting each readable AGENTS.md from `dir` toward `baseDir`.  The Go
`for` loop terminates because `filepath.Dir` eventually reaches a fixed
point; the walk is modelled with fuel, and `gatherAgentsInstructions`
supplies fuel exceeding the number of parent steps possible from `dir`
(each `pathDir` step that does not break either shortens the path or
reaches a one-character directory, which breaks next). -/
def agentsWalk (pg : ProjectGetter) (baseDir : String) : Nat → String → List String
  | 0, _ => []
  | fuel + 1, dir =>
    let agentsPath := pathJoin dir "AGENTS.md"
    let found :=
      match pg.ReadFile agentsPath with
      | (content, none) => [content]
      | (_, some _) => []
    if dir = baseDir ∨ dir = "/" ∨ dir = "." then found
    else
      let parent := pathDir dir
      if parent = dir then found
      else found ++ agentsWalk pg baseDir fuel parent

/-- context.go `gatherAgentsInstructions`. -/
def ContextGatherer.gatherAgentsInstructions (_g : ContextGatherer)
    (baseDir targetFile : String) (pg : ProjectGetter) : String :=
  let dir := pathDir (pathJoin baseDir targetFile)
  let instructions := agentsWalk pg baseDir (dir.length + 2) dir
  if instructions.length = 0 then ""
  else String.intercalate "\n\n---\n\n" instructions

/-- context.go `gatherDiscussionContext`: read the discussion file and keep
its trailing 3000 characters. -/
def ContextGatherer.gatherDiscussionContext (_g : ContextGatherer)
    (projectID : String) (pg : ProjectGetter) : String :=
  match pg.GetProjectDiscussionFile projectID with
  | (_, some _) => ""
  | (discussionFile, none) =>
    match pg.ReadFile discussionFile with
    | (_, some _) => ""
    | (content, none) =>
      if content.length > 3000 then strDrop content (content.length - 3000)
      else content

/-- context.go `gatherAdditionalFiles`: resolve each context file and skip
unreadable ones silently. -/
def ContextGatherer.gatherAdditionalFiles (_g : ContextGatherer)
    (req : CompletionRequest) (baseDir : String) (pg : ProjectGetter) :
    List FileContext :=
  req.ContextFiles.foldl (fun contexts filePath =>
    let absPath := resolveFilePath baseDir filePath
    match pg.ReadFile absPath with
    | (_, some _) => contexts
    | (content, none) => contexts ++ [{ Path := filePath, Content := content }]) []

/-- context.go `detectLanguage`: the fixed extension table, defaulting to
a generic code label. -/
def detectLanguage (filePath : String) : String :=
  let ext := (pathExt filePath).toLower
  let langs : List (String × String) :=
    [(".go", "Go"), (".py", "Python"), (".js", "JavaScript"),
     (".ts", "TypeScript"), (".java", "Java"), (".c", "C"), (".cpp", "C++"),
     (".rs", "Rust"), (".rb", "Ruby"), (".php", "PHP"), (".sh", "Shell")]
  match mapLookup langs ext with
  | some lang => lang
  | none => "code"

/-- context.go `estimateTokens` inside `trimToTokenBudget`. -/
def estimateTokens (s : String) : Nat := s.length / 4

/-- The `currentTokens` sum of context.go `trimToTokenBudget`. -/
def contextTokenEstimate (ctx : CompletionContext) : Nat :=
  estimateTokens ctx.Prefix + estimateTokens ctx.Suffix
    + estimateTokens ctx.AgentsInstructions + estimateTokens ctx.DiscussionContext
    + ctx.AdditionalFiles.foldl (fun acc f => acc + estimateTokens f.Content) 0

/-- context.go `trimToTokenBudget`: when the estimated total exceeds the
budget, cut the discussion to its trailing 1000 characters when it alone
estimates above 1000 tokens, and the instructions to their leading 2000
characters when they alone estimate above 2000 tokens. -/
def ContextGatherer.trimToTokenBudget (g : ContextGatherer)
    (ctx : CompletionContext) : CompletionContext :=
  let currentTokens := contextTokenEstimate ctx
  if (currentTokens : Int) ≤ g.maxTokens then ctx
  else
    let disc :=
      if estimateTokens ctx.DiscussionContext > 1000 then
        strDrop ctx.DiscussionContext (ctx.DiscussionContext.length - 1000)
      else ctx.DiscussionContext
    let agents :=
      if estimateTokens ctx.AgentsInstructions > 2000 then
        strTake ctx.AgentsInstructions 2000
      else ctx.AgentsInstructions
    { ctx with DiscussionContext := disc, AgentsInstructions := agents }

/-- context.go `GatherContext`: fails only when the project base directory
cannot be resolved; every other sub-step degrades to empty content. -/
def ContextGatherer.GatherContext (g : ContextGatherer)
    (req : CompletionRequest) (fileContent : String) (pg : ProjectGetter) :
    Except GoError CompletionContext :=
  match pg.GetProjectBaseDir req.ProjectID with
  | (_, some e) => Except.error e
  | (baseDir, none) =>
    let ps := extractPrefixSuffix fileContent req.CursorLine req.CursorColumn
    let ctx : CompletionContext :=
      { Prefix := ps.1
        Suffix := ps.2
        AgentsInstructions := g.gatherAgentsInstructions baseDir req.FilePath pg
        DiscussionContext := g.gatherDiscussionContext req.ProjectID pg
        AdditionalFiles := g.gatherAdditionalFiles req baseDir pg
        Language := detectLanguage req.FilePath }
    Except.ok (g.trimToTokenBudget ctx)

/-! ### fim.go -/

/-- fim.go `FIMFormatter`. -/
structure FIMFormatter where
  instructionTemplate : String
deriving DecidableEq, Repr

/-- fim.go `FIMFormatter.FormatPrompt`: the fixed-order concatenation of
the preamble, the optional instructions / discussion / related-files
sections, the before- and after-cursor code, and the closing instructions. -/
def FIMFormatter.FormatPrompt (_f : FIMFormatter) (ctx : CompletionContext) : String :=
  let p1 := "You are an expert " ++ ctx.Language
    ++ " programmer. Complete the code at the cursor position.\n\n"
  let p2 :=
    if ctx.AgentsInstructions ≠ "" then
      "PROJECT INSTRUCTIONS:\n" ++ ctx.AgentsInstructions ++ "\n\n"
    else ""
  let p3 :=
    if ctx.DiscussionContext ≠ "" then
      "RECENT PROJECT DISCUSSION:\n" ++ ctx.DiscussionContext ++ "\n\n"
    else ""
  let p4 :=
    if ctx.AdditionalFiles.length > 0 then
      "RELATED FILES:\n"
        ++ ctx.AdditionalFiles.foldl (fun acc file =>
            acc ++ "\n--- " ++ file.Path ++ " ---\n" ++ file.Content ++ "\n") ""
        ++ "\n"
    else ""
  p1 ++ p2 ++ p3 ++ p4
    ++ "CODE BEFORE CURSOR:\n" ++ ctx.Prefix ++ "\n\n"
    ++ "CODE AFTER CURSOR:\n" ++ ctx.Suffix ++ "\n\n"
    ++ "INSTRUCTIONS:\n"
    ++ "Complete only the code at the cursor position.\n"
    ++ "Provide syntactically correct, idiomatic " ++ ctx.Language ++ " code.\n"
    ++ "Do not repeat the prefix or suffix.\n"
    ++ "Output only the completion, nothing else.\n"

/-! ### completion.go: the orchestrator -/

/-- completion.go `GrokkerClient.Query`: llm, system message, user message
and token budget to generated text, token count and error. -/
def GrokkerClient : Type := String → String → String → Int → String × Int × Option GoError

/-- completion.go `CompletionService`. -/
structure CompletionService where
  config : Config
  cache : Cache
  rateLimiter : RateLimiter
  grokker : Option GrokkerClient

/-- completion.go `NewCompletionService` (a `none` argument is Go's nil
config pointer, replaced by the defaults). -/
def NewCompletionService (cfg : Option Config) : Except GoError CompletionService :=
  let config := cfg.getD DefaultConfig
  match config.Validate with
  | some e => Except.error (GoError.wrap "invalid config" e)
  | none => Except.ok
      { config := config
        cache := NewCache config.CacheTTL config.MaxCacheSize config.EnableCache
        rateLimiter := NewRateLimiter
        grokker := none }

/-- completion.go `validateRequest` (the receiver is unused in the source):
reject empty identifiers, then require the resolved target to match a
resolved authorized file after cleaning. -/
def validateRequest (req : CompletionRequest) (pg : ProjectGetter) : Option GoError :=
  if req.ProjectID = "" ∨ req.FilePath = "" then some GoError.invalidRequest
  else
    match pg.GetProjectAuthorizedFiles req.ProjectID with
    | (_, some err) => some err
    | (authorizedFiles, none) =>
      let baseDir := (pg.GetProjectBaseDir req.ProjectID).1
      let targetPath := resolveFilePath baseDir req.FilePath
      if authorizedFiles.any (fun authFile =>
          pathClean (resolveFilePath baseDir authFile) == pathClean targetPath)
      then none
      else some (GoError.wrap ("file not authorized: " ++ req.FilePath)
        GoError.fileNotAuthorized)

/-- The observable call order of one `Complete` invocation, recorded in the
order the Go statements execute. -/
inductive Step where
  | validated
  | rateLimitChecked
  | fileRead
  | cacheGet
  | cacheHit
  | contextGathered
  | promptFormatted
  | generated
  | cacheStored
deriving DecidableEq, Repr

/-- The effect on the cache of `cached.CachedResult = true` in completion.go
`Complete`: the returned response is the very object the entry owns, so the
assignment mutates the stored entry through the shared pointer. -/
def markEntryCached (entries : List (String × CacheEntry)) (key : String) :
    List (String × CacheEntry) :=
  entries.map (fun p =>
    if p.1 = key then
      let r2 := { p.2.Response with CachedResult := true }
      (p.1, { p.2 with Response := r2 })
    else p)

/-- The tail of completion.go `Complete` after a cache miss (or with the
cache disabled): gather context, format the prompt, call the generator,
and store the response. -/
def completeMiss (s1 : CompletionService) (req : CompletionRequest)
    (pg : ProjectGetter) (now : Int) (fileContent : String) (trace : List Step) :
    Except GoError CompletionResponse × CompletionService × List Step :=
  let gatherer : ContextGatherer := { maxTokens := s1.config.MaxContextTokens }
  match gatherer.GatherContext req fileContent pg with
  | Except.error e =>
    (Except.error (GoError.wrap "failed to gather context" e), s1, trace)
  | Except.ok completionCtx =>
    let formatter : FIMFormatter := { instructionTemplate := "" }
    let prompt := formatter.FormatPrompt completionCtx
    let llm := if req.LLM = "" then s1.config.DefaultLLM else req.LLM
    let maxTokens := if req.MaxTokens = 0 then s1.config.MaxTokens else req.MaxTokens
    match s1.grokker with
    | none => (Except.error (GoError.errorf "grokker client not set"), s1,
        trace ++ [Step.contextGathered, Step.promptFormatted])
    | some query =>
      let systemMsg := "You are an expert code completion assistant. Complete the code at the cursor position. Output ONLY the completion text."
      match query llm systemMsg prompt maxTokens with
      | (_, _, some e) => (Except.error (GoError.wrap "LLM call failed" e), s1,
          trace ++ [Step.contextGathered, Step.promptFormatted])
      | (completionText, tokensUsed, none) =>
        let startTime := now
        let response : CompletionResponse :=
          { Completion := completionText
            LatencyMs := now - startTime
            Model := llm
            TokensUsed := tokensUsed
            CachedResult := false
            Timestamp := now }
        if s1.config.EnableCache then
          (Except.ok response,
           { s1 with cache := s1.cache.Put req fileContent response now },
           trace ++ [Step.contextGathered, Step.promptFormatted, Step.generated,
             Step.cacheStored])
        else
          (Except.ok response, s1,
           trace ++ [Step.contextGathered, Step.promptFormatted, Step.generated])

/-- completion.go `Complete`: validate, check the rate limit, read the
target file, consult the cache (hit short-circuits, setting the shared
cache-served flag), otherwise gather, format, generate and store.  All the
`time.Now()` readings of one call are modelled by `now`; the third
component records the executed steps in order. -/
def CompletionService.Complete (s : CompletionService) (req : CompletionRequest)
    (pg : ProjectGetter) (now : Int) :
    Except GoError CompletionResponse × CompletionService × List Step :=
  match validateRequest req pg with
  | some e => (Except.error e, s, [])
  | none =>
    let rl := s.rateLimiter.CheckLimit req.ProjectID s.config.MaxRequestsPerMinute
      s.config.MaxRequestsPerHour now
    let s1 := { s with rateLimiter := rl.1 }
    match rl.2 with
    | some e => (Except.error e, s1, [Step.validated, Step.rateLimitChecked])
    | none =>
      let baseDir := (pg.GetProjectBaseDir req.ProjectID).1
      let targetPath := resolveFilePath baseDir req.FilePath
      match pg.ReadFile targetPath with
      | (_, some e) => (Except.error (GoError.wrap "failed to read file" e), s1,
          [Step.validated, Step.rateLimitChecked])
      | (fileContent, none) =>
        if s1.config.EnableCache then
          match s1.cache.Get req fileContent now with
          | some cached =>
            let cached2 := { cached with CachedResult := true }
            let cache2 :=
              { s1.cache with entries := markEntryCached s1.cache.entries (cacheKey req) }
            (Except.ok cached2, { s1 with cache := cache2 },
             [Step.validated, Step.rateLimitChecked, Step.fileRead, Step.cacheGet,
              Step.cacheHit])
          | none => completeMiss s1 req pg now fileContent
              [Step.validated, Step.rateLimitChecked, Step.fileRead, Step.cacheGet]
        else completeMiss s1 req pg now fileContent
          [Step.validated, Step.rateLimitChecked, Step.fileRead]

/-! ## Claims -/

/-! ### C7: which configuration fields are validated -/

/-- A configuration whose `RequestTimeout`, `CacheTTL` and `MaxCacheSize`
are all non-positive while every field that `Validate` actually checks is
in range. -/
def c7BadConfig : Config :=
  { DefaultLLM := "m"
    MaxTokens := 1
    Temperature := 1
    RequestTimeout := 0
    MaxContextTokens := 1
    IncludeAgentsFile := false
    IncludeDiscussion := false
    MaxDiscussionRounds := 1
    EnableCache := false
    CacheTTL := 0
    MaxCacheSize := 0
    MaxRequestsPerMinute := 1
    MaxRequestsPerHour := 1 }

/-- C7 counterexample: a configuration with a non-positive request timeout,
cache TTL and max cache entry count passes `Config.Validate`, although the
claim demands an error for any non-positive numeric field. -/
theorem c7_counterexample :
    c7BadConfig.RequestTimeout ≤ 0 ∧ c7BadConfig.CacheTTL ≤ 0
      ∧ c7BadConfig.MaxCacheSize ≤ 0 ∧ c7BadConfig.Validate = none := by
  decide

/-- C7 (amended): `Config.Validate` succeeds exactly when the default model
is non-empty, max tokens, the max context-token budget and the two rate
thresholds are positive, and the temperature lies in `[0, 2]`; the request
timeout, cache TTL and max cache entry count are never checked. -/
theorem c7_validate_characterization (c : Config) :
    c.Validate = none ↔
      (c.DefaultLLM ≠ "" ∧ 0 < c.MaxTokens ∧ 0 ≤ c.Temperature ∧ c.Temperature ≤ 2
        ∧ 0 < c.MaxContextTokens ∧ 0 < c.MaxRequestsPerMinute
        ∧ 0 < c.MaxRequestsPerHour) := by
  unfold Config.Validate
  split_ifs with h1 h2 h3 h4 h5 h6 <;> simp_all <;> push_neg at * <;>
    first
      | omega
      | (rcases h3 with h3 | h3 <;> intros <;> linarith)
      | (intro _ _; constructor <;> linarith)

/-! ### C2: the token-budget trim amounts -/

/-- Characters of `String.mk` (bridging lemma for length computations). -/
theorem length_mk (l : List Char) : (String.mk l).length = l.length := rfl

/-- What the over-budget trim pass does when both per-section conditions
hold (shared helper). -/
theorem trimBudget_over_both (g : ContextGatherer) (ctx : CompletionContext)
    (hover : ¬ ((contextTokenEstimate ctx : Int) ≤ g.maxTokens))
    (hdisc : estimateTokens ctx.DiscussionContext > 1000)
    (hagents : estimateTokens ctx.AgentsInstructions > 2000) :
    (g.trimToTokenBudget ctx).DiscussionContext
        = strDrop ctx.DiscussionContext (ctx.DiscussionContext.length - 1000)
      ∧ (g.trimToTokenBudget ctx).AgentsInstructions
        = strTake ctx.AgentsInstructions 2000
      ∧ (g.trimToTokenBudget ctx).DiscussionContext.length = 1000
      ∧ (g.trimToTokenBudget ctx).AgentsInstructions.length = 2000
      ∧ (g.trimToTokenBudget ctx).Prefix = ctx.Prefix
      ∧ (g.trimToTokenBudget ctx).Suffix = ctx.Suffix
      ∧ (g.trimToTokenBudget ctx).AdditionalFiles = ctx.AdditionalFiles := by
  have hd : 1000 ≤ ctx.DiscussionContext.length := by
    unfold estimateTokens at hdisc; omega
  have ha : 2000 ≤ ctx.AgentsInstructions.length := by
    unfold estimateTokens at hagents; omega
  unfold ContextGatherer.trimToTokenBudget
  rw [if_neg hover, if_pos hdisc, if_pos hagents]
  refine ⟨rfl, rfl, ?_, ?_, rfl, rfl, rfl⟩
  · show (strDrop ctx.DiscussionContext (ctx.DiscussionContext.length - 1000)).length = 1000
    have h : (strDrop ctx.DiscussionContext (ctx.DiscussionContext.length - 1000)).length
        = (ctx.DiscussionContext.data.drop (ctx.DiscussionContext.length - 1000)).length := rfl
    rw [h, List.length_drop]
    have hlen : ctx.DiscussionContext.length = ctx.DiscussionContext.data.length := rfl
    omega
  · show (strTake ctx.AgentsInstructions 2000).length = 2000
    have h : (strTake ctx.AgentsInstructions 2000).length
        = (ctx.AgentsInstructions.data.take 2000).length := rfl
    rw [h, List.length_take]
    have hlen : ctx.AgentsInstructions.length = ctx.AgentsInstructions.data.length := rfl
    omega

/-- C2 (amended), over every context: under budget nothing changes; over
budget the discussion is cut to its trailing 1000 characters (not a
1000-token / 4000-character equivalent) exactly when it alone estimates
above 1000 tokens, and the instructions to their leading 2000 characters
(not 8000) exactly when they alone estimate above 2000 tokens; the prefix,
suffix and auxiliary files are never touched by this pass. -/
theorem c2_trim_amounts (g : ContextGatherer) (ctx : CompletionContext) :
    (((contextTokenEstimate ctx : Int) ≤ g.maxTokens → g.trimToTokenBudget ctx = ctx)
      ∧ (¬ ((contextTokenEstimate ctx : Int) ≤ g.maxTokens) →
          ((g.trimToTokenBudget ctx).DiscussionContext
              = (if estimateTokens ctx.DiscussionContext > 1000 then
                  strDrop ctx.DiscussionContext (ctx.DiscussionContext.length - 1000)
                else ctx.DiscussionContext)
            ∧ (g.trimToTokenBudget ctx).AgentsInstructions
              = (if estimateTokens ctx.AgentsInstructions > 2000 then
                  strTake ctx.AgentsInstructions 2000
                else ctx.AgentsInstructions)
            ∧ (estimateTokens ctx.DiscussionContext > 1000 →
                (g.trimToTokenBudget ctx).DiscussionContext.length = 1000)
            ∧ (estimateTokens ctx.AgentsInstructions > 2000 →
                (g.trimToTokenBudget ctx).AgentsInstructions.length = 2000))))
  ∧ (g.trimToTokenBudget ctx).Prefix = ctx.Prefix
  ∧ (g.trimToTokenBudget ctx).Suffix = ctx.Suffix
  ∧ (g.trimToTokenBudget ctx).AdditionalFiles = ctx.AdditionalFiles := by
  by_cases hover : (contextTokenEstimate ctx : Int) ≤ g.maxTokens
  · have heq : g.trimToTokenBudget ctx = ctx := by
      unfold ContextGatherer.trimToTokenBudget
      rw [if_pos hover]
    rw [heq]
    exact ⟨⟨fun _ => rfl, fun h => absurd hover h⟩, rfl, rfl, rfl⟩
  · have heq : g.trimToTokenBudget ctx =
        { ctx with
          DiscussionContext := (if estimateTokens ctx.DiscussionContext > 1000 then
              strDrop ctx.DiscussionContext (ctx.DiscussionContext.length - 1000)
            else ctx.DiscussionContext)
          AgentsInstructions := (if estimateTokens ctx.AgentsInstructions > 2000 then
              strTake ctx.AgentsInstructions 2000
            else ctx.AgentsInstructions) } := by
      unfold ContextGatherer.trimToTokenBudget
      rw [if_neg hover]
    rw [heq]
    refine ⟨⟨fun h => absurd h hover, fun _ => ⟨rfl, rfl, ?_, ?_⟩⟩, rfl, rfl, rfl⟩
    · intro hdisc
      show (if estimateTokens ctx.DiscussionContext > 1000 then
          strDrop ctx.DiscussionContext (ctx.DiscussionContext.length - 1000)
        else ctx.DiscussionContext).length = 1000
      rw [if_pos hdisc]
      have h : (strDrop ctx.DiscussionContext (ctx.DiscussionContext.length - 1000)).length
          = (ctx.DiscussionContext.data.drop (ctx.DiscussionContext.length - 1000)).length :=
        rfl
      rw [h, List.length_drop]
      have hd : 1000 ≤ ctx.DiscussionContext.length := by
        unfold estimateTokens at hdisc
        omega
      have hlen : ctx.DiscussionContext.length = ctx.DiscussionContext.data.length := rfl
      omega
    · intro hagents
      show (if estimateTokens ctx.AgentsInstructions > 2000 then
          strTake ctx.AgentsInstructions 2000
        else ctx.AgentsInstructions).length = 2000
      rw [if_pos hagents]
      have h : (strTake ctx.AgentsInstructions 2000).length
          = (ctx.AgentsInstructions.data.take 2000).length := rfl
      rw [h, List.length_take]
      have ha : 2000 ≤ ctx.AgentsInstructions.length := by
        unfold estimateTokens at hagents
        omega
      have hlen : ctx.AgentsInstructions.length = ctx.AgentsInstructions.data.length := rfl
      omega

/-- An assembled context matching the spec's worked example: 5000 source
characters split at the cursor, 10000 instruction characters, 5000
discussion characters, no auxiliary files. -/
def c2Ctx : CompletionContext :=
  { Prefix := String.mk (List.replicate 2500 'a')
    Suffix := String.mk (List.replicate 2500 'b')
    AgentsInstructions := String.mk (List.replicate 10000 'c')
    DiscussionContext := String.mk (List.replicate 5000 'd')
    AdditionalFiles := []
    Language := "Go" }

/-- The gatherer with the spec example's budget of 1000 tokens. -/
def c2Gatherer : ContextGatherer := { maxTokens := 1000 }

theorem c2Ctx_prefix_len : c2Ctx.Prefix.length = 2500 := by
  show (String.mk (List.replicate 2500 'a')).length = 2500
  rw [length_mk, List.length_replicate]

theorem c2Ctx_suffix_len : c2Ctx.Suffix.length = 2500 := by
  show (String.mk (List.replicate 2500 'b')).length = 2500
  rw [length_mk, List.length_replicate]

theorem c2Ctx_agents_len : c2Ctx.AgentsInstructions.length = 10000 := by
  show (String.mk (List.replicate 10000 'c')).length = 10000
  rw [length_mk, List.length_replicate]

theorem c2Ctx_disc_len : c2Ctx.DiscussionContext.length = 5000 := by
  show (String.mk (List.replicate 5000 'd')).length = 5000
  rw [length_mk, List.length_replicate]

theorem c2Ctx_over : ¬ ((contextTokenEstimate c2Ctx : Int) ≤ c2Gatherer.maxTokens) := by
  unfold contextTokenEstimate estimateTokens
  rw [c2Ctx_prefix_len, c2Ctx_suffix_len, c2Ctx_agents_len, c2Ctx_disc_len,
    show c2Ctx.AdditionalFiles = [] from rfl]
  norm_num [c2Gatherer]

theorem c2Ctx_disc_big : estimateTokens c2Ctx.DiscussionContext > 1000 := by
  unfold estimateTokens
  rw [c2Ctx_disc_len]
  norm_num

theorem c2Ctx_agents_big : estimateTokens c2Ctx.AgentsInstructions > 2000 := by
  unfold estimateTokens
  rw [c2Ctx_agents_len]
  norm_num

/-- C2 counterexample: on the spec's own example the trimmed discussion has
length 1000 and the trimmed instructions length 2000, not the claimed
trailing ~4000 / leading ~8000 characters. -/
theorem c2_counterexample :
    (c2Gatherer.trimToTokenBudget c2Ctx).DiscussionContext.length = 1000
  ∧ (c2Gatherer.trimToTokenBudget c2Ctx).AgentsInstructions.length = 2000
  ∧ (c2Gatherer.trimToTokenBudget c2Ctx).DiscussionContext
      ≠ strDrop c2Ctx.DiscussionContext 1000
  ∧ (c2Gatherer.trimToTokenBudget c2Ctx).AgentsInstructions
      ≠ strTake c2Ctx.AgentsInstructions 8000 := by
  obtain ⟨hde, hae, hdl, hal, -⟩ :=
    trimBudget_over_both c2Gatherer c2Ctx c2Ctx_over c2Ctx_disc_big c2Ctx_agents_big
  have hdrop : (strDrop c2Ctx.DiscussionContext 1000).length = 4000 := by
    have h : (strDrop c2Ctx.DiscussionContext 1000).length
        = (c2Ctx.DiscussionContext.data.drop 1000).length := rfl
    have hlen : c2Ctx.DiscussionContext.data.length = 5000 := c2Ctx_disc_len
    rw [h, List.length_drop, hlen]
  have htake : (strTake c2Ctx.AgentsInstructions 8000).length = 8000 := by
    have h : (strTake c2Ctx.AgentsInstructions 8000).length
        = (c2Ctx.AgentsInstructions.data.take 8000).length := rfl
    have hlen : c2Ctx.AgentsInstructions.data.length = 10000 := c2Ctx_agents_len
    rw [h, List.length_take, hlen]
    omega
  refine ⟨hdl, hal, ?_, ?_⟩
  · intro h
    rw [h, hdrop] at hdl
    omega
  · intro h
    rw [h, htake] at hal
    omega

/-- C2 witness: the amended theorem applied to the spec example's context,
with the over-budget and both per-section conditions discharged there. -/
theorem c2_witness :
    (¬ ((contextTokenEstimate c2Ctx : Int) ≤ c2Gatherer.maxTokens)
      ∧ estimateTokens c2Ctx.DiscussionContext > 1000
      ∧ estimateTokens c2Ctx.AgentsInstructions > 2000)
  ∧ ((c2Gatherer.trimToTokenBudget c2Ctx).DiscussionContext
        = (if estimateTokens c2Ctx.DiscussionContext > 1000 then
            strDrop c2Ctx.DiscussionContext (c2Ctx.DiscussionContext.length - 1000)
          else c2Ctx.DiscussionContext)
      ∧ (c2Gatherer.trimToTokenBudget c2Ctx).AgentsInstructions
        = (if estimateTokens c2Ctx.AgentsInstructions > 2000 then
            strTake c2Ctx.AgentsInstructions 2000
          else c2Ctx.AgentsInstructions)
      ∧ (c2Gatherer.trimToTokenBudget c2Ctx).DiscussionContext.length = 1000
      ∧ (c2Gatherer.trimToTokenBudget c2Ctx).AgentsInstructions.length = 2000
      ∧ (c2Gatherer.trimToTokenBudget c2Ctx).Prefix = c2Ctx.Prefix
      ∧ (c2Gatherer.trimToTokenBudget c2Ctx).Suffix = c2Ctx.Suffix
      ∧ (c2Gatherer.trimToTokenBudget c2Ctx).AdditionalFiles = c2Ctx.AdditionalFiles) := by
  have h := c2_trim_amounts c2Gatherer c2Ctx
  obtain ⟨hde, hae, hl1, hl2⟩ := h.1.2 c2Ctx_over
  exact ⟨⟨c2Ctx_over, c2Ctx_disc_big, c2Ctx_agents_big⟩,
    hde, hae, hl1 c2Ctx_disc_big, hl2 c2Ctx_agents_big, h.2.1, h.2.2.1, h.2.2.2⟩

/-! ### C9: the prefix/suffix split when the column reaches the line end -/

/-- C9: when the clamped column is at least the clamped cursor line's
length (in particular at the exact end of the line), the split omits the
cursor line entirely: the before-text is the lines strictly above joined
with newlines and the after-text the lines strictly below. -/
theorem c9_cursor_line_omitted (content : String) (line col : Int)
    (h : ((contentLines content).getD (clampLine (contentLines content) line) "").length
      ≤ clampCol col) :
    extractPrefixSuffix content line col =
      (String.intercalate "\n"
        ((contentLines content).take (clampLine (contentLines content) line)),
       String.intercalate "\n"
        ((contentLines content).drop (clampLine (contentLines content) line + 1))) := by
  simp only [extractPrefixSuffix]
  have hfalse : decide (clampCol col
      < ((contentLines content).getD (clampLine (contentLines content) line) "").length)
      = false := decide_eq_false (not_lt.mpr h)
  rw [hfalse, Bool.and_false]
  simp only [if_neg Bool.false_ne_true, List.append_nil, List.nil_append]
  by_cases hl : clampLine (contentLines content) line + 1 < (contentLines content).length
  · rw [if_pos hl]
  · rw [if_neg hl, List.drop_eq_nil_of_le (by omega)]

/-- C9 witness: splitting at line 0, column 2 of a two-line file whose
first line has length 2 drops the first line entirely. -/
theorem c9_witness :
    ((contentLines "ab\ncd").getD (clampLine (contentLines "ab\ncd") 0) "").length
      ≤ clampCol 2
  ∧ extractPrefixSuffix "ab\ncd" 0 2 = ("", "cd") := by
  have h : ((contentLines "ab\ncd").getD (clampLine (contentLines "ab\ncd") 0) "").length
      ≤ clampCol 2 := by decide
  refine ⟨h, ?_⟩
  rw [c9_cursor_line_omitted "ab\ncd" 0 2 h]
  decide

/-! ### C4: cache-hit validity conditions -/

/-- What an enabled cache's `Get` returns (shared helper): the stored
response exactly when an entry exists, its age is within the TTL, and the
current content hashes to the stored fingerprint. -/
theorem cacheGet_some_iff (c : Cache) (req : CompletionRequest)
    (fileContent : String) (now : Int) (r : CompletionResponse)
    (hen : c.enabled = true) :
    c.Get req fileContent now = some r ↔
      ∃ entry, mapLookup c.entries (cacheKey req) = some entry
        ∧ now - entry.CreatedAt ≤ c.ttl
        ∧ hashContent fileContent = entry.FileHash
        ∧ r = entry.Response := by
  unfold Cache.Get
  rw [hen]
  cases hlook : mapLookup c.entries (cacheKey req) with
  | none => simp [hlook]
  | some entry =>
    simp only [Bool.not_true, Bool.false_eq_true, if_false, hlook, Option.some.injEq]
    by_cases hage : now - entry.CreatedAt > c.ttl
    · rw [if_pos hage]
      constructor
      · intro h; exact absurd h (by simp)
      · rintro ⟨e, he, hage2, -, -⟩
        subst he
        omega
    · rw [if_neg hage]
      by_cases hhash : entry.FileHash ≠ hashContent fileContent
      · rw [if_pos hhash]
        constructor
        · intro h; exact absurd h (by simp)
        · rintro ⟨e, he, -, hh, -⟩
          subst he
          exact absurd hh.symm hhash
      · rw [if_neg hhash]
        push_neg at hhash
        constructor
        · intro h
          rw [Option.some.injEq] at h
          exact ⟨entry, rfl, by omega, hhash.symm, h.symm⟩
        · rintro ⟨e, he, -, -, hr⟩
          subst he
          rw [hr]
  done

/-- C4: for an enabled cache, `Get` returns the stored result exactly when
an entry exists for the key, `now - createdAt ≤ ttl` holds, and the hash
of the current content equals the stored fingerprint; failing either
condition yields absent independently of the other. -/
theorem c4_get_characterization (c : Cache) (req : CompletionRequest)
    (fileContent : String) (now : Int) (r : CompletionResponse)
    (hen : c.enabled = true) :
    c.Get req fileContent now = some r ↔
      ∃ entry, mapLookup c.entries (cacheKey req) = some entry
        ∧ now - entry.CreatedAt ≤ c.ttl
        ∧ hashContent fileContent = entry.FileHash
        ∧ r = entry.Response :=
  cacheGet_some_iff c req fileContent now r hen

/-- A sample non-cached response shared by the concrete test fixtures. -/
def sampleResp : CompletionResponse :=
  { Completion := "x", LatencyMs := 0, Model := "m", TokensUsed := 1,
    CachedResult := false, Timestamp := 0 }

/-- A sample request shared by the concrete test fixtures. -/
def c4Req : CompletionRequest :=
  { ProjectID := "p", FilePath := "f", CursorLine := 0, CursorColumn := 0,
    LLM := "", MaxTokens := 0, ContextFiles := [], Temperature := 0 }

/-- An entry for `c4Req` created at time 0 fingerprinting content "src". -/
def c4Entry : CacheEntry :=
  { Response := sampleResp, CreatedAt := 0, FileHash := hashContent "src" }

/-- An enabled one-entry cache with TTL 100. -/
def c4Cache : Cache :=
  { entries := [(cacheKey c4Req, c4Entry)], ttl := 100, maxSize := 0, enabled := true }

/-- C4 witness: the characterization instantiated on a one-entry cache. -/
theorem c4_witness :
    c4Cache.enabled = true
  ∧ (c4Cache.Get c4Req "src" 50 = some sampleResp ↔
      ∃ entry, mapLookup c4Cache.entries (cacheKey c4Req) = some entry
        ∧ 50 - entry.CreatedAt ≤ c4Cache.ttl
        ∧ hashContent "src" = entry.FileHash
        ∧ sampleResp = entry.Response) :=
  ⟨rfl, c4_get_characterization c4Cache c4Req "src" 50 sampleResp rfl⟩

/-! ### C8: the prompt formatter is a pure deterministic function -/

/-- C8: rendering depends on nothing but the six context fields — two
renderings over field-wise equal contexts, even by formatters in different
states, produce byte-identical output.  Side-effect freedom is inherent:
`FormatPrompt` is a function of its arguments and returns only the string. -/
theorem c8_formatPrompt_deterministic (f1 f2 : FIMFormatter)
    (ctx1 ctx2 : CompletionContext)
    (hPre : ctx1.Prefix = ctx2.Prefix) (hSuf : ctx1.Suffix = ctx2.Suffix)
    (hAg : ctx1.AgentsInstructions = ctx2.AgentsInstructions)
    (hDi : ctx1.DiscussionContext = ctx2.DiscussionContext)
    (hAf : ctx1.AdditionalFiles = ctx2.AdditionalFiles)
    (hLa : ctx1.Language = ctx2.Language) :
    f1.FormatPrompt ctx1 = f2.FormatPrompt ctx2 := by
  have h : ctx1 = ctx2 := by cases ctx1; cases ctx2; simp_all
  subst h
  unfold FIMFormatter.FormatPrompt
  rfl

/-- A small assembled context for the formatter witness. -/
def c8Ctx : CompletionContext :=
  { Prefix := "a", Suffix := "b", AgentsInstructions := "",
    DiscussionContext := "", AdditionalFiles := [], Language := "Go" }

/-- C8 witness: two formatter objects with different internal state render
the same context identically. -/
theorem c8_witness :
    c8Ctx.Prefix = c8Ctx.Prefix
  ∧ (FIMFormatter.mk "x").FormatPrompt c8Ctx = (FIMFormatter.mk "y").FormatPrompt c8Ctx :=
  ⟨rfl, c8_formatPrompt_deterministic (FIMFormatter.mk "x") (FIMFormatter.mk "y")
    c8Ctx c8Ctx rfl rfl rfl rfl rfl rfl⟩

/-! ### C10: the configured maximum cache size is immaterial -/

/-- One cache operation of an arbitrary usage sequence. -/
inductive CacheOp where
  | get (req : CompletionRequest) (fileContent : String) (now : Int)
  | put (req : CompletionRequest) (fileContent : String)
      (resp : CompletionResponse) (now : Int)

/-- Run a sequence of operations against a cache, recording each `Get`
result (`none` recorded for `Put`). -/
def runCacheOps : Cache → List CacheOp → Cache × List (Option CompletionResponse)
  | c, [] => (c, [])
  | c, CacheOp.get req fc now :: rest =>
    let q := runCacheOps c rest
    (q.1, c.Get req fc now :: q.2)
  | c, CacheOp.put req fc resp now :: rest =>
    let q := runCacheOps (c.Put req fc resp now) rest
    (q.1, none :: q.2)

/-- `Get` never reads `maxSize`. -/
theorem cacheGet_maxSize (c : Cache) (m : Int) (req : CompletionRequest)
    (fc : String) (now : Int) :
    Cache.Get { c with maxSize := m } req fc now = c.Get req fc now := rfl

/-- `Put` never reads `maxSize` and preserves it. -/
theorem cachePut_maxSize (c : Cache) (m : Int) (req : CompletionRequest)
    (fc : String) (resp : CompletionResponse) (now : Int) :
    Cache.Put { c with maxSize := m } req fc resp now =
      { c.Put req fc resp now with maxSize := m } := by
  cases c with
  | mk entries ttl maxSize enabled =>
    cases enabled <;> simp [Cache.Put]

/-- Any run is insensitive to the `maxSize` field (shared helper). -/
theorem runCacheOps_maxSize (ops : List CacheOp) : ∀ (c : Cache) (m : Int),
    (runCacheOps { c with maxSize := m } ops).1.entries
        = (runCacheOps c ops).1.entries
    ∧ (runCacheOps { c with maxSize := m } ops).2 = (runCacheOps c ops).2 := by
  induction ops with
  | nil => intro c m; exact ⟨rfl, rfl⟩
  | cons op rest ih =>
    intro c m
    cases op with
    | get req fc now =>
      simp only [runCacheOps]
      exact ⟨(ih c m).1, by rw [cacheGet_maxSize, (ih c m).2]⟩
    | put req fc resp now =>
      simp only [runCacheOps, cachePut_maxSize]
      exact ⟨(ih (c.Put req fc resp now) m).1,
        by rw [(ih (c.Put req fc resp now) m).2]⟩

/-- C10: two caches constructed identically except for the `maxSize`
argument produce identical `Get` results and identical final entry maps on
every operation sequence; the field is stored but never consulted. -/
theorem c10_maxSize_immaterial (ttl : Int) (m1 m2 : Int) (enabled : Bool)
    (ops : List CacheOp) :
    (runCacheOps (NewCache ttl m1 enabled) ops).1.entries
        = (runCacheOps (NewCache ttl m2 enabled) ops).1.entries
    ∧ (runCacheOps (NewCache ttl m1 enabled) ops).2
        = (runCacheOps (NewCache ttl m2 enabled) ops).2
    ∧ (NewCache ttl m1 enabled).maxSize = m1 := by
  have h1 := runCacheOps_maxSize ops (NewCache ttl m2 enabled) m1
  have h2 : ({ NewCache ttl m2 enabled with maxSize := m1 }) = NewCache ttl m1 enabled := rfl
  rw [h2] at h1
  exact ⟨h1.1, h1.2, rfl⟩

/-! ### C3: the eviction ceiling -/

theorem mapInsert_length_fresh {α : Type} (l : List (String × α)) (k : String)
    (v : α) (h : ∀ p ∈ l, p.1 ≠ k) : (mapInsert l k v).length = l.length + 1 := by
  induction l with
  | nil => rfl
  | cons p rest ih =>
    have hp : p.1 ≠ k := h p (List.mem_cons_self p rest)
    simp only [mapInsert, if_neg hp, List.length_cons]
    rw [ih (fun q hq => h q (List.mem_cons_of_mem p hq))]

theorem mapErase_of_not_mem {α : Type} (l : List (String × α)) (k : String)
    (h : ∀ p ∈ l, p.1 ≠ k) : mapErase l k = l := by
  induction l with
  | nil => rfl
  | cons p rest ih =>
    have hp : p.1 ≠ k := h p (List.mem_cons_self p rest)
    simp only [mapErase, if_neg hp]
    rw [ih (fun q hq => h q (List.mem_cons_of_mem p hq))]

theorem mapErase_mem {α : Type} {l : List (String × α)} {k : String}
    {p : String × α} (h : p ∈ mapErase l k) : p ∈ l := by
  induction l with
  | nil => exact absurd h (by simp [mapErase])
  | cons q rest ih =>
    by_cases hq : q.1 = k
    · simp only [mapErase, if_pos hq] at h
      exact List.mem_cons_of_mem q (ih h)
    · simp only [mapErase, if_neg hq] at h
      rcases List.mem_cons.mp h with h | h
      · exact h ▸ List.mem_cons_self q rest
      · exact List.mem_cons_of_mem q (ih h)

theorem mapErase_key_ne {α : Type} {l : List (String × α)} {k : String}
    {p : String × α} (h : p ∈ mapErase l k) : p.1 ≠ k := by
  induction l with
  | nil => exact absurd h (by simp [mapErase])
  | cons q rest ih =>
    by_cases hq : q.1 = k
    · simp only [mapErase, if_pos hq] at h
      exact ih h
    · simp only [mapErase, if_neg hq] at h
      rcases List.mem_cons.mp h with h | h
      · exact h ▸ hq
      · exact ih h

theorem mapErase_length_mem {α : Type} (l : List (String × α)) (k : String)
    (hdist : l.Pairwise (fun p q => p.1 ≠ q.1)) (hmem : ∃ v, (k, v) ∈ l) :
    (mapErase l k).length + 1 = l.length := by
  induction l with
  | nil => exact absurd hmem (by simp)
  | cons p rest ih =>
    rw [List.pairwise_cons] at hdist
    by_cases hp : p.1 = k
    · have hrest : ∀ q ∈ rest, q.1 ≠ k := fun q hq => by
        have := hdist.1 q hq
        rw [hp] at this
        exact fun hqk => this hqk.symm
      simp only [mapErase, if_pos hp, List.length_cons]
      rw [mapErase_of_not_mem rest k hrest]
    · obtain ⟨v, hv⟩ := hmem
      rcases List.mem_cons.mp hv with h | h
      · exact absurd (congrArg Prod.fst h).symm hp
      · simp only [mapErase, if_neg hp, List.length_cons]
        rw [← ih hdist.2 ⟨v, h⟩]

theorem mapLookup_eq_none {α : Type} (l : List (String × α)) (k : String)
    (h : ∀ p ∈ l, p.1 ≠ k) : mapLookup l k = none := by
  induction l with
  | nil => rfl
  | cons p rest ih =>
    have hp : p.1 ≠ k := h p (List.mem_cons_self p rest)
    simp only [mapLookup, if_neg hp]
    exact ih (fun q hq => h q (List.mem_cons_of_mem p hq))

theorem mapLookup_mapInsert_ne {α : Type} (l : List (String × α))
    (k k' : String) (v : α) (h : k ≠ k') :
    mapLookup (mapInsert l k v) k' = mapLookup l k' := by
  induction l with
  | nil => simp [mapInsert, mapLookup, h]
  | cons p rest ih =>
    by_cases hp : p.1 = k
    · simp only [mapInsert, if_pos hp, mapLookup, if_neg h, if_neg (hp ▸ h : p.1 ≠ k')]
    · simp only [mapInsert, if_neg hp, mapLookup]
      by_cases hp' : p.1 = k'
      · rw [if_pos hp', if_pos hp']
      · rw [if_neg hp', if_neg hp', ih]

theorem foldl_oldStep_mem (l : List (String × CacheEntry)) :
    ∀ acc : String × Int,
      l.foldl oldStep acc = acc
      ∨ ∃ e, ((l.foldl oldStep acc).1, e) ∈ l
          ∧ e.CreatedAt = (l.foldl oldStep acc).2 := by
  induction l with
  | nil => intro acc; exact Or.inl rfl
  | cons p rest ih =>
    intro acc
    simp only [List.foldl_cons]
    rcases ih (oldStep acc p) with h | ⟨e, hmem, ht⟩
    · rw [h]
      unfold oldStep
      split_ifs with hc
      · right
        refine ⟨p.2, ?_, rfl⟩
        left
      · exact Or.inl rfl
    · exact Or.inr ⟨e, List.mem_cons_of_mem p hmem, ht⟩

theorem foldl_oldStep_min (l : List (String × CacheEntry)) :
    ∀ acc : String × Int, acc.1 ≠ "" → (∀ p ∈ l, p.1 ≠ "") →
      (l.foldl oldStep acc).2 ≤ acc.2
      ∧ ∀ p ∈ l, (l.foldl oldStep acc).2 ≤ p.2.CreatedAt := by
  induction l with
  | nil =>
    intro acc _ _
    exact ⟨le_refl _, by simp⟩
  | cons p rest ih =>
    intro acc hacc hkeys
    simp only [List.foldl_cons]
    have hp1 : p.1 ≠ "" := hkeys p (List.mem_cons_self p rest)
    have hkeys' : ∀ q ∈ rest, q.1 ≠ "" :=
      fun q hq => hkeys q (List.mem_cons_of_mem p hq)
    by_cases hc : p.2.CreatedAt < acc.2
    · have hstep : oldStep acc p = (p.1, p.2.CreatedAt) := by
        unfold oldStep
        rw [if_pos (Or.inr hc)]
      rw [hstep]
      have h := ih (p.1, p.2.CreatedAt) hp1 hkeys'
      refine ⟨le_trans h.1 (le_of_lt hc), fun q hq => ?_⟩
      rcases List.mem_cons.mp hq with h' | h'
      · rw [h']
        exact h.1
      · exact h.2 q h'
    · have hstep : oldStep acc p = acc := by
        unfold oldStep
        rw [if_neg (not_or.mpr ⟨hacc, hc⟩)]
      rw [hstep]
      have h := ih acc hacc hkeys'
      refine ⟨h.1, fun q hq => ?_⟩
      rcases List.mem_cons.mp hq with h' | h'
      · rw [h']
        exact le_trans h.1 (not_lt.mp hc)
      · exact h.2 q h'

/-- The eviction scan on a non-empty map with no empty key finds a resident
key whose entry has the smallest creation timestamp. -/
theorem findOldestKey_spec (l : List (String × CacheEntry)) (hne : l ≠ [])
    (hkeys : ∀ p ∈ l, p.1 ≠ "") :
    ∃ e, (findOldestKey l, e) ∈ l ∧ ∀ p ∈ l, e.CreatedAt ≤ p.2.CreatedAt := by
  obtain ⟨p, rest, rfl⟩ := List.exists_cons_of_ne_nil hne
  unfold findOldestKey
  simp only [List.foldl_cons]
  have hstep : oldStep ("", 0) p = (p.1, p.2.CreatedAt) := by
    unfold oldStep
    rw [if_pos (Or.inl rfl)]
  rw [hstep]
  have hp1 : p.1 ≠ "" := hkeys p (List.mem_cons_self p rest)
  have hkeys' : ∀ q ∈ rest, q.1 ≠ "" :=
    fun q hq => hkeys q (List.mem_cons_of_mem p hq)
  have hmin := foldl_oldStep_min rest (p.1, p.2.CreatedAt) hp1 hkeys'
  rcases foldl_oldStep_mem rest (p.1, p.2.CreatedAt) with h | ⟨e, he, ht⟩
  · rw [h]
    refine ⟨p.2, by left, fun q hq => ?_⟩
    rcases List.mem_cons.mp hq with h' | h'
    · rw [h']
    · rw [h] at hmin
      exact hmin.2 q h'
  · refine ⟨e, List.mem_cons_of_mem p he, fun q hq => ?_⟩
    rw [ht]
    rcases List.mem_cons.mp hq with h' | h'
    · rw [h']
      exact hmin.1
    · exact hmin.2 q h'

/-- C3 (amended): `Put` of a fresh key evicts nothing while the cache holds
at most 1000 entries (so a 1001st distinct key grows it to 1001); only a
`Put` on a cache already holding more than 1000 entries removes one entry,
one holding a smallest creation timestamp, so the resident count can reach
but never exceeds 1001. -/
theorem c3_eviction_cap (c : Cache) (req : CompletionRequest)
    (fileContent : String) (resp : CompletionResponse) (now : Int)
    (hen : c.enabled = true)
    (hkeys : ∀ p ∈ c.entries, p.1 ≠ "")
    (hdist : c.entries.Pairwise (fun p q => p.1 ≠ q.1))
    (hfresh : ∀ p ∈ c.entries, p.1 ≠ cacheKey req) :
    (c.entries.length ≤ 1000 →
        (c.Put req fileContent resp now).entries.length = c.entries.length + 1)
  ∧ (1000 < c.entries.length →
        (c.Put req fileContent resp now).entries.length = c.entries.length
      ∧ ∃ e, (findOldestKey c.entries, e) ∈ c.entries
          ∧ (∀ p ∈ c.entries, e.CreatedAt ≤ p.2.CreatedAt)
          ∧ mapLookup (c.Put req fileContent resp now).entries
              (findOldestKey c.entries) = none)
  ∧ (c.entries.length ≤ 1001 →
        (c.Put req fileContent resp now).entries.length ≤ 1001) := by
  have hput : c.Put req fileContent resp now =
      { c with entries := (mapInsert
          (if c.entries.length > 1000 then
            (if findOldestKey c.entries ≠ "" then mapErase c.entries (findOldestKey c.entries)
             else c.entries)
           else c.entries)
          (cacheKey req)
          { Response := resp, CreatedAt := now, FileHash := hashContent fileContent }) } := by
    unfold Cache.Put
    rw [hen]
    rfl
  have hsmall : c.entries.length ≤ 1000 →
      (c.Put req fileContent resp now).entries.length = c.entries.length + 1 := by
    intro hle
    rw [hput]
    simp only [if_neg (by omega : ¬ (c.entries.length > 1000))]
    exact mapInsert_length_fresh c.entries (cacheKey req) _ hfresh
  have hbig : 1000 < c.entries.length →
      (c.Put req fileContent resp now).entries.length = c.entries.length
    ∧ ∃ e, (findOldestKey c.entries, e) ∈ c.entries
        ∧ (∀ p ∈ c.entries, e.CreatedAt ≤ p.2.CreatedAt)
        ∧ mapLookup (c.Put req fileContent resp now).entries
            (findOldestKey c.entries) = none := by
    intro hgt
    have hne : c.entries ≠ [] := by
      intro h
      rw [h] at hgt
      simp at hgt
    obtain ⟨e, hmem, hminimal⟩ := findOldestKey_spec c.entries hne hkeys
    have hokne : findOldestKey c.entries ≠ "" := hkeys _ hmem
    have hokfresh : findOldestKey c.entries ≠ cacheKey req := hfresh _ hmem
    have hput2 : (c.Put req fileContent resp now).entries =
        mapInsert (mapErase c.entries (findOldestKey c.entries)) (cacheKey req)
          { Response := resp, CreatedAt := now, FileHash := hashContent fileContent } := by
      rw [hput]
      simp only [if_pos hgt, if_pos hokne]
    have hfresh2 : ∀ p ∈ mapErase c.entries (findOldestKey c.entries),
        p.1 ≠ cacheKey req := fun p hp => hfresh p (mapErase_mem hp)
    constructor
    · rw [hput2, mapInsert_length_fresh _ _ _ hfresh2]
      have := mapErase_length_mem c.entries (findOldestKey c.entries) hdist ⟨e, hmem⟩
      omega
    · refine ⟨e, hmem, hminimal, ?_⟩
      rw [hput2, mapLookup_mapInsert_ne _ _ _ _ (fun h => hokfresh h.symm)]
      exact mapLookup_eq_none _ _ (fun p hp h => mapErase_key_ne hp h)
  refine ⟨hsmall, hbig, fun hle => ?_⟩
  by_cases h : c.entries.length ≤ 1000
  · rw [hsmall h]
    omega
  · rw [(hbig (by omega)).1]
    exact hle

/-- Distinct non-empty keys, one per subscript. -/
def akey (i : Nat) : String := String.mk (List.replicate (i + 1) 'a')

/-- An enabled cache holding exactly 1000 entries under distinct keys. -/
def c3BigCache : Cache :=
  { entries := (List.range 1000).map (fun i =>
      (akey i, { Response := sampleResp, CreatedAt := (i : Int), FileHash := "h" })),
    ttl := 100, maxSize := 104857600, enabled := true }

theorem akey_head (i : Nat) : (akey i).data.head? = some 'a' := by
  simp [akey, List.replicate_succ]

theorem c3BigCache_fresh : ∀ p ∈ c3BigCache.entries, p.1 ≠ cacheKey c4Req := by
  intro p hp
  simp only [c3BigCache, List.mem_map, List.mem_range] at hp
  obtain ⟨i, -, rfl⟩ := hp
  intro h
  have h2 : akey i = cacheKey c4Req := h
  have hhead := akey_head i
  rw [h2] at hhead
  have : (cacheKey c4Req).data.head? = some 'p' := rfl
  rw [this] at hhead
  simp at hhead

/-- C3 counterexample: putting a 1001st distinct key into a cache already
holding 1000 entries evicts nothing — the resident count becomes 1001,
exceeding the claimed ceiling of 1000. -/
theorem c3_counterexample :
    c3BigCache.entries.length = 1000
  ∧ (c3BigCache.Put c4Req "src" sampleResp 5).entries.length = 1001 := by
  have hlen : c3BigCache.entries.length = 1000 := by
    simp [c3BigCache]
  refine ⟨hlen, ?_⟩
  have hput : (c3BigCache.Put c4Req "src" sampleResp 5).entries =
      mapInsert c3BigCache.entries (cacheKey c4Req)
        { Response := sampleResp, CreatedAt := 5, FileHash := hashContent "src" } := by
    unfold Cache.Put
    rw [show c3BigCache.enabled = true from rfl]
    simp only [Bool.not_true, Bool.false_eq_true, if_false, hlen]
    norm_num
  rw [hput, mapInsert_length_fresh _ _ _ c3BigCache_fresh, hlen]

/-- A two-entry cache for the C3 witness. -/
def c3SmallCache : Cache :=
  { entries := [(akey 0, { Response := sampleResp, CreatedAt := 3, FileHash := "h" }),
                (akey 1, { Response := sampleResp, CreatedAt := 1, FileHash := "h" })],
    ttl := 100, maxSize := 0, enabled := true }

/-- C3 witness: the amended theorem applied to a concrete two-entry cache,
where the fresh `Put` grows the map to three entries. -/
theorem c3_witness :
    (c3SmallCache.enabled = true
      ∧ (∀ p ∈ c3SmallCache.entries, p.1 ≠ "")
      ∧ c3SmallCache.entries.Pairwise (fun p q => p.1 ≠ q.1)
      ∧ (∀ p ∈ c3SmallCache.entries, p.1 ≠ cacheKey c4Req)
      ∧ c3SmallCache.entries.length ≤ 1000)
  ∧ (c3SmallCache.Put c4Req "src" sampleResp 5).entries.length
      = c3SmallCache.entries.length + 1 := by
  have h1 : c3SmallCache.enabled = true := rfl
  have h2 : ∀ p ∈ c3SmallCache.entries, p.1 ≠ "" := by decide
  have h3 : c3SmallCache.entries.Pairwise (fun p q => p.1 ≠ q.1) := by
    simp only [c3SmallCache, List.pairwise_cons, List.mem_singleton]
    refine ⟨?_, by simp⟩
    intro q hq
    rw [hq]
    decide
  have h4 : ∀ p ∈ c3SmallCache.entries, p.1 ≠ cacheKey c4Req := by decide
  have h5 : c3SmallCache.entries.length ≤ 1000 := by decide
  exact ⟨⟨h1, h2, h3, h4, h5⟩,
    (c3_eviction_cap c3SmallCache c4Req "src" sampleResp 5 h1 h2 h3 h4).1 h5⟩

/-! ### C5: the rolling-window rate limiter -/

/-- Run `CheckLimit` once per listed timestamp, collecting the returned
errors in order. -/
def runChecks (pid : String) (maxPerMin maxPerHour : Int) :
    RateLimiter → List Int → RateLimiter × List (Option GoError)
  | r, [] => (r, [])
  | r, now :: rest =>
    let p := r.CheckLimit pid maxPerMin maxPerHour now
    let q := runChecks pid maxPerMin maxPerHour p.1 rest
    (q.1, p.2 :: q.2)

/-- First call for a tenant: the counter is created at `now` and both
counts become 1. -/
theorem checkLimit_fresh (pid : String) (mpm mph now : Int)
    (hm : 0 < mpm) (hh : 0 < mph) :
    RateLimiter.CheckLimit { requestCounts := [] } pid mpm mph now =
      ({ requestCounts := [(pid, ⟨1, 1, now, now⟩)] }, none) := by
  have hlook : mapLookup ([] : List (String × RequestCount)) pid = none := rfl
  unfold RateLimiter.CheckLimit
  rw [hlook]
  simp only [if_neg (by unfold minuteNs; omega : ¬ (minuteNs ≤ now - now)),
    if_neg (by unfold hourNs; omega : ¬ (hourNs ≤ now - now)),
    if_neg (by omega : ¬ (mpm ≤ (0 : Int))), if_neg (by omega : ¬ (mph ≤ (0 : Int))),
    mapInsert, zero_add]

/-- A call inside both open windows and under both thresholds increments
both counters together. -/
theorem checkLimit_step (pid : String) (m h lm lh mpm mph now : Int)
    (hmin : now - lm < minuteNs) (hhr : now - lh < hourNs)
    (hcm : m < mpm) (hch : h < mph) :
    RateLimiter.CheckLimit { requestCounts := [(pid, ⟨m, h, lm, lh⟩)] } pid mpm mph now =
      ({ requestCounts := [(pid, ⟨m + 1, h + 1, lm, lh⟩)] }, none) := by
  have hlook : mapLookup [(pid, (⟨m, h, lm, lh⟩ : RequestCount))] pid
      = some ⟨m, h, lm, lh⟩ := by simp [mapLookup]
  unfold RateLimiter.CheckLimit
  rw [hlook]
  simp only [if_neg (not_le.mpr hmin), if_neg (not_le.mpr hhr),
    if_neg (not_le.mpr hcm), if_neg (not_le.mpr hch), mapInsert, if_pos rfl,
    eq_self_iff_true, if_true]

/-- A call inside both open windows with the minute count at its threshold
is rejected with the per-minute rate-limit error and changes nothing. -/
theorem checkLimit_reject_minute (pid : String) (m h lm lh mpm mph now : Int)
    (hmin : now - lm < minuteNs) (hhr : now - lh < hourNs) (hcm : mpm ≤ m) :
    RateLimiter.CheckLimit { requestCounts := [(pid, ⟨m, h, lm, lh⟩)] } pid mpm mph now =
      ({ requestCounts := [(pid, ⟨m, h, lm, lh⟩)] },
       some (WrapRateLimitError "per-minute rate limit exceeded"
         GoError.rateLimitExceeded)) := by
  have hlook : mapLookup [(pid, (⟨m, h, lm, lh⟩ : RequestCount))] pid
      = some ⟨m, h, lm, lh⟩ := by simp [mapLookup]
  unfold RateLimiter.CheckLimit
  rw [hlook]
  simp only [if_neg (not_le.mpr hmin), if_neg (not_le.mpr hhr), if_pos hcm,
    mapInsert, if_pos rfl, eq_self_iff_true, if_true]

/-- A call after the minute window elapsed rebases that window to `now`,
zeroes the minute count, and is accepted when the thresholds allow. -/
theorem checkLimit_minute_rollover (pid : String) (m h lm lh mpm mph now : Int)
    (hmin : now - lm ≥ minuteNs) (hhr : now - lh < hourNs)
    (hcm : 0 < mpm) (hch : h < mph) :
    RateLimiter.CheckLimit { requestCounts := [(pid, ⟨m, h, lm, lh⟩)] } pid mpm mph now =
      ({ requestCounts := [(pid, ⟨1, h + 1, now, lh⟩)] }, none) := by
  have hlook : mapLookup [(pid, (⟨m, h, lm, lh⟩ : RequestCount))] pid
      = some ⟨m, h, lm, lh⟩ := by simp [mapLookup]
  unfold RateLimiter.CheckLimit
  rw [hlook]
  simp only [if_pos hmin, if_neg (not_le.mpr hhr),
    if_neg (by omega : ¬ (mpm ≤ (0 : Int))), if_neg (not_le.mpr hch),
    mapInsert, if_pos rfl, eq_self_iff_true, if_true, zero_add]

/-- C5: from a fresh tenant, calls at t0 ≤ … ≤ t9 inside one rolling minute
are all accepted, each incrementing both counters together (ending at
10/10 with the window anchored at t0); an 11th call t10 still inside the
window is rejected with the per-minute rate-limit error and increments
neither counter; a later call t11 at or past t0 + one minute (and inside
the hour window) is accepted again. -/
theorem c5_rate_limit_window (pid : String)
    (t0 t1 t2 t3 t4 t5 t6 t7 t8 t9 t10 t11 : Int)
    (h01 : t0 ≤ t1) (h12 : t1 ≤ t2) (h23 : t2 ≤ t3) (h34 : t3 ≤ t4)
    (h45 : t4 ≤ t5) (h56 : t5 ≤ t6) (h67 : t6 ≤ t7) (h78 : t7 ≤ t8)
    (h89 : t8 ≤ t9) (h910 : t9 ≤ t10)
    (hwin : t10 < t0 + minuteNs)
    (hroll : t0 + minuteNs ≤ t11) (hhour : t11 < t0 + hourNs) :
    runChecks pid 10 50 NewRateLimiter [t0, t1, t2, t3, t4, t5, t6, t7, t8, t9] =
      ({ requestCounts := [(pid, ⟨10, 10, t0, t0⟩)] }, List.replicate 10 none)
  ∧ RateLimiter.CheckLimit { requestCounts := [(pid, ⟨10, 10, t0, t0⟩)] } pid 10 50 t10 =
      ({ requestCounts := [(pid, ⟨10, 10, t0, t0⟩)] },
       some (WrapRateLimitError "per-minute rate limit exceeded"
         GoError.rateLimitExceeded))
  ∧ RateLimiter.CheckLimit { requestCounts := [(pid, ⟨10, 10, t0, t0⟩)] } pid 10 50 t11 =
      ({ requestCounts := [(pid, ⟨1, 11, t11, t0⟩)] }, none) := by
  have hmh : minuteNs < hourNs := by unfold minuteNs hourNs; omega
  have s0 := checkLimit_fresh pid 10 50 t0 (by omega) (by omega)
  have s1 := checkLimit_step pid 1 1 t0 t0 10 50 t1
    (by linarith) (by linarith) (by omega) (by omega)
  have s2 := checkLimit_step pid 2 2 t0 t0 10 50 t2
    (by linarith) (by linarith) (by omega) (by omega)
  have s3 := checkLimit_step pid 3 3 t0 t0 10 50 t3
    (by linarith) (by linarith) (by omega) (by omega)
  have s4 := checkLimit_step pid 4 4 t0 t0 10 50 t4
    (by linarith) (by linarith) (by omega) (by omega)
  have s5 := checkLimit_step pid 5 5 t0 t0 10 50 t5
    (by linarith) (by linarith) (by omega) (by omega)
  have s6 := checkLimit_step pid 6 6 t0 t0 10 50 t6
    (by linarith) (by linarith) (by omega) (by omega)
  have s7 := checkLimit_step pid 7 7 t0 t0 10 50 t7
    (by linarith) (by linarith) (by omega) (by omega)
  have s8 := checkLimit_step pid 8 8 t0 t0 10 50 t8
    (by linarith) (by linarith) (by omega) (by omega)
  have s9 := checkLimit_step pid 9 9 t0 t0 10 50 t9
    (by linarith) (by linarith) (by omega) (by omega)
  refine ⟨?_, ?_, ?_⟩
  · show runChecks pid 10 50 { requestCounts := [] }
        [t0, t1, t2, t3, t4, t5, t6, t7, t8, t9] = _
    norm_num [runChecks, s0, s1, s2, s3, s4, s5, s6, s7, s8, s9, List.replicate]
  · exact checkLimit_reject_minute pid 10 10 t0 t0 10 50 t10
      (by linarith) (by linarith) (by omega)
  · exact checkLimit_minute_rollover pid 10 10 t0 t0 10 50 t11
      (by linarith) (by linarith) (by omega) (by omega)

/-- C5 witness: the window behavior at one-second call spacing, with the
post-rollover call exactly one minute after the first. -/
theorem c5_witness :
    ((0 : Int) ≤ 1 ∧ (10 : Int) < 0 + minuteNs ∧ (0 : Int) + minuteNs ≤ 60000000000)
  ∧ (runChecks "p" 10 50 NewRateLimiter [0, 1, 2, 3, 4, 5, 6, 7, 8, 9] =
      ({ requestCounts := [("p", ⟨10, 10, 0, 0⟩)] }, List.replicate 10 none)
    ∧ RateLimiter.CheckLimit { requestCounts := [("p", ⟨10, 10, 0, 0⟩)] } "p" 10 50 10 =
        ({ requestCounts := [("p", ⟨10, 10, 0, 0⟩)] },
         some (WrapRateLimitError "per-minute rate limit exceeded"
           GoError.rateLimitExceeded))
    ∧ RateLimiter.CheckLimit { requestCounts := [("p", ⟨10, 10, 0, 0⟩)] } "p" 10 50 60000000000 =
        ({ requestCounts := [("p", ⟨1, 11, 60000000000, 0⟩)] }, none)) := by
  refine ⟨⟨by omega, by unfold minuteNs; omega, by unfold minuteNs; omega⟩, ?_⟩
  exact c5_rate_limit_window "p" 0 1 2 3 4 5 6 7 8 9 10 60000000000
    (by omega) (by omega) (by omega) (by omega) (by omega) (by omega) (by omega)
    (by omega) (by omega) (by omega)
    (by unfold minuteNs; omega) (by unfold minuteNs; omega) (by unfold hourNs; omega)

/-! ### C1 and C6: the orchestrator's hit path -/

/-- The miss path only appends post-cache steps to the trace it was given. -/
theorem completeMiss_trace (s1 : CompletionService) (req : CompletionRequest)
    (pg : ProjectGetter) (now : Int) (fc : String) (tr : List Step) :
    ∃ extra, (completeMiss s1 req pg now fc tr).2.2 = tr ++ extra
      ∧ Step.cacheGet ∉ extra ∧ Step.rateLimitChecked ∉ extra := by
  cases hg : ContextGatherer.GatherContext { maxTokens := s1.config.MaxContextTokens } req fc pg with
  | error e =>
    refine ⟨[], ?_, by simp, by simp⟩
    simp only [completeMiss, hg, List.append_nil]
  | ok cctx =>
    cases hgr : s1.grokker with
    | none =>
      refine ⟨[Step.contextGathered, Step.promptFormatted], ?_, by decide, by decide⟩
      simp only [completeMiss, hg, hgr]
    | some query =>
      rcases hq : query (if req.LLM = "" then s1.config.DefaultLLM else req.LLM)
          "You are an expert code completion assistant. Complete the code at the cursor position. Output ONLY the completion text."
          (FIMFormatter.FormatPrompt { instructionTemplate := "" } cctx)
          (if req.MaxTokens = 0 then s1.config.MaxTokens else req.MaxTokens)
        with ⟨text, tokens, err⟩
      cases err with
      | some e =>
        refine ⟨[Step.contextGathered, Step.promptFormatted], ?_, by decide, by decide⟩
        simp only [completeMiss, hg, hgr, hq]
      | none =>
        by_cases hec : s1.config.EnableCache
        · refine ⟨[Step.contextGathered, Step.promptFormatted, Step.generated,
            Step.cacheStored], ?_, by decide, by decide⟩
          simp only [completeMiss, hg, hgr, hq, if_pos hec]
        · refine ⟨[Step.contextGathered, Step.promptFormatted, Step.generated],
            ?_, by decide, by decide⟩
          simp only [completeMiss, hg, hgr, hq, if_neg hec]

/-- Every response produced by the miss path carries a false cache-served
flag. -/
theorem completeMiss_not_cached (s1 : CompletionService) (req : CompletionRequest)
    (pg : ProjectGetter) (now : Int) (fc : String) (tr : List Step)
    (r : CompletionResponse)
    (h : (completeMiss s1 req pg now fc tr).1 = Except.ok r) :
    r.CachedResult = false := by
  cases hg : ContextGatherer.GatherContext { maxTokens := s1.config.MaxContextTokens } req fc pg with
  | error e =>
    rw [show (completeMiss s1 req pg now fc tr).1
      = Except.error (GoError.wrap "failed to gather context" e) by
        simp only [completeMiss, hg]] at h
    exact absurd h (by simp)
  | ok cctx =>
    cases hgr : s1.grokker with
    | none =>
      rw [show (completeMiss s1 req pg now fc tr).1
        = Except.error (GoError.errorf "grokker client not set") by
          simp only [completeMiss, hg, hgr]] at h
      exact absurd h (by simp)
    | some query =>
      rcases hq : query (if req.LLM = "" then s1.config.DefaultLLM else req.LLM)
          "You are an expert code completion assistant. Complete the code at the cursor position. Output ONLY the completion text."
          (FIMFormatter.FormatPrompt { instructionTemplate := "" } cctx)
          (if req.MaxTokens = 0 then s1.config.MaxTokens else req.MaxTokens)
        with ⟨text, tokens, err⟩
      cases err with
      | some e =>
        rw [show (completeMiss s1 req pg now fc tr).1
          = Except.error (GoError.wrap "LLM call failed" e) by
            simp only [completeMiss, hg, hgr, hq]] at h
        exact absurd h (by simp)
      | none =>
        by_cases hec : s1.config.EnableCache
        · rw [show (completeMiss s1 req pg now fc tr).1 = Except.ok
            { Completion := text, LatencyMs := now - now,
              Model := if req.LLM = "" then s1.config.DefaultLLM else req.LLM,
              TokensUsed := tokens, CachedResult := false, Timestamp := now } by
              simp only [completeMiss, hg, hgr, hq, if_pos hec]] at h
          rw [Except.ok.injEq] at h
          rw [← h]
        · rw [show (completeMiss s1 req pg now fc tr).1 = Except.ok
            { Completion := text, LatencyMs := now - now,
              Model := if req.LLM = "" then s1.config.DefaultLLM else req.LLM,
              TokensUsed := tokens, CachedResult := false, Timestamp := now } by
              simp only [completeMiss, hg, hgr, hq, if_neg hec]] at h
          rw [Except.ok.injEq] at h
          rw [← h]

/-- A successful `Get` exposes the looked-up entry (shared helper). -/
theorem cacheGet_some_entry {c : Cache} {req : CompletionRequest} {fc : String}
    {now : Int} {r : CompletionResponse} (h : Cache.Get c req fc now = some r) :
    ∃ entry, mapLookup c.entries (cacheKey req) = some entry ∧ entry.Response = r := by
  cases hen : c.enabled with
  | false =>
    unfold Cache.Get at h
    rw [hen] at h
    simp at h
  | true =>
    obtain ⟨entry, hl, -, -, hr⟩ := (cacheGet_some_iff c req fc now r hen).mp h
    exact ⟨entry, hl, hr.symm⟩

/-- Setting the cache-served flag through the shared pointer rewrites
exactly the entry at the mutated key. -/
theorem mapLookup_markEntryCached (l : List (String × CacheEntry)) (k : String) :
    mapLookup (markEntryCached l k) k = (mapLookup l k).map
      (fun e => { e with Response := { e.Response with CachedResult := true } }) := by
  induction l with
  | nil => rfl
  | cons p rest ih =>
    obtain ⟨pk, pe⟩ := p
    by_cases hp : pk = k
    · subst hp
      have h1 : markEntryCached ((pk, pe) :: rest) pk
          = (pk, { pe with Response := { pe.Response with CachedResult := true } })
              :: markEntryCached rest pk := by
        unfold markEntryCached
        rw [List.map_cons]
        congr 1
        exact if_pos rfl
      have h3 : mapLookup ((pk, pe) :: rest) pk = some pe := by
        simp only [mapLookup, eq_self_iff_true, if_true]
      rw [h1, h3]
      simp only [mapLookup, eq_self_iff_true, if_true]
      rfl
    · have h1 : markEntryCached ((pk, pe) :: rest) k
          = (pk, pe) :: markEntryCached rest k := by
        unfold markEntryCached
        rw [List.map_cons]
        congr 1
        exact if_neg hp
      have h3 : mapLookup ((pk, pe) :: rest) k = mapLookup rest k := by
        simp only [mapLookup]
        exact if_neg hp
      rw [h1, h3]
      simp only [mapLookup]
      rw [if_neg hp]
      exact ih

/-- Inversion of a cache-served `Complete` result (shared helper): only the
hit branch marks the response cache-served, so a cache-served success
pins down the whole run — the limiter check passed (and its post-state is
kept), the file read succeeded, the cache hit, and the stored entry was
mutated through the shared response pointer. -/
theorem complete_cached_inversion (s : CompletionService) (req : CompletionRequest)
    (pg : ProjectGetter) (now : Int) (r : CompletionResponse)
    (hok : (s.Complete req pg now).1 = Except.ok r)
    (hcr : r.CachedResult = true) :
    ∃ fileContent cached,
      pg.ReadFile (resolveFilePath (pg.GetProjectBaseDir req.ProjectID).1 req.FilePath)
          = (fileContent, none)
      ∧ s.config.EnableCache = true
      ∧ Cache.Get s.cache req fileContent now = some cached
      ∧ r = { cached with CachedResult := true }
      ∧ s.Complete req pg now =
          (Except.ok ({ cached with CachedResult := true }),
           { s with
              rateLimiter := (s.rateLimiter.CheckLimit req.ProjectID
                s.config.MaxRequestsPerMinute s.config.MaxRequestsPerHour now).1,
              cache := { s.cache with
                entries := markEntryCached s.cache.entries (cacheKey req) } },
           [Step.validated, Step.rateLimitChecked, Step.fileRead, Step.cacheGet,
            Step.cacheHit])
      ∧ (s.rateLimiter.CheckLimit req.ProjectID s.config.MaxRequestsPerMinute
            s.config.MaxRequestsPerHour now).2 = none := by
  cases hv : validateRequest req pg with
  | some e =>
    rw [show s.Complete req pg now = (Except.error e, s, []) by
      simp only [CompletionService.Complete, hv]] at hok
    exact absurd hok (by simp)
  | none =>
    cases hrl : (s.rateLimiter.CheckLimit req.ProjectID s.config.MaxRequestsPerMinute
        s.config.MaxRequestsPerHour now).2 with
    | some e =>
      rw [show s.Complete req pg now = (Except.error e,
          { s with rateLimiter := (s.rateLimiter.CheckLimit req.ProjectID
              s.config.MaxRequestsPerMinute s.config.MaxRequestsPerHour now).1 },
          [Step.validated, Step.rateLimitChecked]) by
        simp only [CompletionService.Complete, hv, hrl]] at hok
      exact absurd hok (by simp)
    | none =>
      rcases hrf : pg.ReadFile (resolveFilePath (pg.GetProjectBaseDir req.ProjectID).1
          req.FilePath) with ⟨fc, er⟩
      cases er with
      | some e =>
        rw [show s.Complete req pg now = (Except.error (GoError.wrap "failed to read file" e),
            { s with rateLimiter := (s.rateLimiter.CheckLimit req.ProjectID
                s.config.MaxRequestsPerMinute s.config.MaxRequestsPerHour now).1 },
            [Step.validated, Step.rateLimitChecked]) by
          simp only [CompletionService.Complete, hv, hrl, hrf]] at hok
        exact absurd hok (by simp)
      | none =>
        by_cases hec : s.config.EnableCache
        · cases hcg : Cache.Get s.cache req fc now with
          | some cached =>
            have hcomp : s.Complete req pg now =
                (Except.ok ({ cached with CachedResult := true }),
                 { s with
                    rateLimiter := (s.rateLimiter.CheckLimit req.ProjectID
                      s.config.MaxRequestsPerMinute s.config.MaxRequestsPerHour now).1,
                    cache := { s.cache with
                      entries := markEntryCached s.cache.entries (cacheKey req) } },
                 [Step.validated, Step.rateLimitChecked, Step.fileRead, Step.cacheGet,
                  Step.cacheHit]) := by
              simp only [CompletionService.Complete, hv, hrl, hrf, if_pos hec, hcg]
            rw [hcomp] at hok
            rw [show ((Except.ok ({ cached with CachedResult := true }),
                { s with
                    rateLimiter := (s.rateLimiter.CheckLimit req.ProjectID
                      s.config.MaxRequestsPerMinute s.config.MaxRequestsPerHour now).1,
                    cache := { s.cache with
                      entries := markEntryCached s.cache.entries (cacheKey req) } },
                [Step.validated, Step.rateLimitChecked, Step.fileRead, Step.cacheGet,
                 Step.cacheHit]).1 : Except GoError CompletionResponse)
              = Except.ok ({ cached with CachedResult := true }) from rfl,
              Except.ok.injEq] at hok
            refine ⟨fc, cached, rfl, ?_, hcg, hok.symm, hcomp, rfl⟩
            simpa using hec
          | none =>
            have hcomp : s.Complete req pg now =
                completeMiss { s with rateLimiter := (s.rateLimiter.CheckLimit req.ProjectID
                    s.config.MaxRequestsPerMinute s.config.MaxRequestsPerHour now).1 }
                  req pg now fc
                  [Step.validated, Step.rateLimitChecked, Step.fileRead, Step.cacheGet] := by
              simp only [CompletionService.Complete, hv, hrl, hrf, if_pos hec, hcg]
            rw [hcomp] at hok
            have := completeMiss_not_cached _ _ _ _ _ _ _ hok
            rw [hcr] at this
            exact absurd this (by simp)
        · have hcomp : s.Complete req pg now =
              completeMiss { s with rateLimiter := (s.rateLimiter.CheckLimit req.ProjectID
                  s.config.MaxRequestsPerMinute s.config.MaxRequestsPerHour now).1 }
                req pg now fc
                [Step.validated, Step.rateLimitChecked, Step.fileRead] := by
            simp only [CompletionService.Complete, hv, hrl, hrf, if_neg hec]
          rw [hcomp] at hok
          have := completeMiss_not_cached _ _ _ _ _ _ _ hok
          rw [hcr] at this
          exact absurd this (by simp)

/-- C1 (amended): the orchestrator consults the rate limiter before the
cache — whenever the cache is consulted at all, the rate-limit check
already happened earlier in the same run — and a cache-served request does
not leave the tenant's window counters unchanged: it ends with exactly the
rate limiter state produced by a successful (incrementing) `CheckLimit`. -/
theorem c1_rateLimiter_before_cache (s : CompletionService)
    (req : CompletionRequest) (pg : ProjectGetter) (now : Int) :
    (Step.cacheGet ∈ (s.Complete req pg now).2.2 →
      ∃ t1 t2, (s.Complete req pg now).2.2 = t1 ++ Step.rateLimitChecked :: t2
        ∧ Step.cacheGet ∈ t2 ∧ Step.rateLimitChecked ∉ t1)
  ∧ (∀ r, (s.Complete req pg now).1 = Except.ok r → r.CachedResult = true →
      (s.Complete req pg now).2.1.rateLimiter =
        (s.rateLimiter.CheckLimit req.ProjectID s.config.MaxRequestsPerMinute
          s.config.MaxRequestsPerHour now).1
      ∧ (s.rateLimiter.CheckLimit req.ProjectID s.config.MaxRequestsPerMinute
          s.config.MaxRequestsPerHour now).2 = none) := by
  constructor
  · intro hmem
    cases hv : validateRequest req pg with
    | some e =>
      rw [show (s.Complete req pg now).2.2 = [] by
        simp only [CompletionService.Complete, hv]] at hmem
      simp at hmem
    | none =>
      cases hrl : (s.rateLimiter.CheckLimit req.ProjectID s.config.MaxRequestsPerMinute
          s.config.MaxRequestsPerHour now).2 with
      | some e =>
        rw [show (s.Complete req pg now).2.2 = [Step.validated, Step.rateLimitChecked] by
          simp only [CompletionService.Complete, hv, hrl]] at hmem
        simp at hmem
      | none =>
        rcases hrf : pg.ReadFile (resolveFilePath (pg.GetProjectBaseDir req.ProjectID).1
            req.FilePath) with ⟨fc, er⟩
        cases er with
        | some e =>
          rw [show (s.Complete req pg now).2.2 = [Step.validated, Step.rateLimitChecked] by
            simp only [CompletionService.Complete, hv, hrl, hrf]] at hmem
          simp at hmem
        | none =>
          by_cases hec : s.config.EnableCache
          · cases hcg : Cache.Get s.cache req fc now with
            | some cached =>
              rw [show (s.Complete req pg now).2.2
                  = [Step.validated, Step.rateLimitChecked, Step.fileRead, Step.cacheGet,
                     Step.cacheHit] by
                simp only [CompletionService.Complete, hv, hrl, hrf, if_pos hec, hcg]]
              exact ⟨[Step.validated],
                [Step.fileRead, Step.cacheGet, Step.cacheHit], rfl, by decide, by decide⟩
            | none =>
              obtain ⟨extra, hextra, hncg, -⟩ := completeMiss_trace
                { s with rateLimiter := (s.rateLimiter.CheckLimit req.ProjectID
                    s.config.MaxRequestsPerMinute s.config.MaxRequestsPerHour now).1 }
                req pg now fc
                [Step.validated, Step.rateLimitChecked, Step.fileRead, Step.cacheGet]
              rw [show (s.Complete req pg now).2.2
                  = (completeMiss { s with rateLimiter := (s.rateLimiter.CheckLimit
                        req.ProjectID s.config.MaxRequestsPerMinute
                        s.config.MaxRequestsPerHour now).1 }
                      req pg now fc
                      [Step.validated, Step.rateLimitChecked, Step.fileRead,
                       Step.cacheGet]).2.2 by
                simp only [CompletionService.Complete, hv, hrl, hrf, if_pos hec, hcg]]
              rw [hextra]
              refine ⟨[Step.validated],
                Step.fileRead :: Step.cacheGet :: extra, rfl, ?_, by decide⟩
              simp
          · obtain ⟨extra, hextra, hncg, -⟩ := completeMiss_trace
              { s with rateLimiter := (s.rateLimiter.CheckLimit req.ProjectID
                  s.config.MaxRequestsPerMinute s.config.MaxRequestsPerHour now).1 }
              req pg now fc
              [Step.validated, Step.rateLimitChecked, Step.fileRead]
            rw [show (s.Complete req pg now).2.2
                = (completeMiss { s with rateLimiter := (s.rateLimiter.CheckLimit
                      req.ProjectID s.config.MaxRequestsPerMinute
                      s.config.MaxRequestsPerHour now).1 }
                    req pg now fc
                    [Step.validated, Step.rateLimitChecked, Step.fileRead]).2.2 by
              simp only [CompletionService.Complete, hv, hrl, hrf, if_neg hec]] at hmem
            rw [hextra] at hmem
            rcases List.mem_append.mp hmem with h | h
            · simp at h
            · exact absurd h hncg
  · intro r hok hcr
    obtain ⟨fc, cached, -, -, -, -, hcomp, hrlnone⟩ :=
      complete_cached_inversion s req pg now r hok hcr
    rw [hcomp]
    exact ⟨rfl, hrlnone⟩

/-- A request for an absolute, authorized path. -/
def cxReq : CompletionRequest :=
  { ProjectID := "p", FilePath := "/f.go", CursorLine := 0, CursorColumn := 0,
    LLM := "", MaxTokens := 0, ContextFiles := [], Temperature := 0 }

/-- A host environment serving one authorized readable file. -/
def cxPg : ProjectGetter :=
  { GetProjectBaseDir := fun _ => ("/base", none)
    GetProjectAuthorizedFiles := fun _ => (["/f.go"], none)
    GetProjectDiscussionFile := fun _ => ("", some GoError.fileNotFound)
    ReadFile := fun path => if path = "/f.go" then ("package main", none)
                            else ("", some GoError.fileNotFound) }

/-- A cache warmed by a real `Put` of `sampleResp` (whose cache-served flag
is false) at time 0. -/
def cxCache : Cache :=
  Cache.Put (NewCache 300000000000 104857600 true) cxReq "package main" sampleResp 0

/-- A service with default configuration, the warm cache and a fresh rate
limiter. -/
def cxService : CompletionService :=
  { config := DefaultConfig, cache := cxCache, rateLimiter := NewRateLimiter,
    grokker := none }

/-- C1 counterexample: a concrete request served from the cache still goes
through the rate limiter first — the executed-step trace holds the
rate-limit check before the cache lookup, and the tenant's window counters
change from absent to 1/1 instead of staying unchanged. -/
theorem c1_counterexample :
    (cxService.Complete cxReq cxPg 10).1
      = Except.ok ({ sampleResp with CachedResult := true })
  ∧ (cxService.Complete cxReq cxPg 10).2.2
      = [Step.validated, Step.rateLimitChecked, Step.fileRead, Step.cacheGet,
         Step.cacheHit]
  ∧ mapLookup (cxService.Complete cxReq cxPg 10).2.1.rateLimiter.requestCounts "p"
      = some ⟨1, 1, 10, 10⟩
  ∧ mapLookup cxService.rateLimiter.requestCounts "p" = none :=
  ⟨rfl, rfl, rfl, rfl⟩

/-- C1 witness: the amended ordering theorem applied to the concrete
cache-served run. -/
theorem c1_witness :
    Step.cacheGet ∈ (cxService.Complete cxReq cxPg 10).2.2
  ∧ ∃ t1 t2, (cxService.Complete cxReq cxPg 10).2.2
        = t1 ++ Step.rateLimitChecked :: t2
      ∧ Step.cacheGet ∈ t2 ∧ Step.rateLimitChecked ∉ t1 := by
  have hm : Step.cacheGet ∈ (cxService.Complete cxReq cxPg 10).2.2 := by
    rw [show (cxService.Complete cxReq cxPg 10).2.2
      = [Step.validated, Step.rateLimitChecked, Step.fileRead, Step.cacheGet,
         Step.cacheHit] from rfl]
    decide
  exact ⟨hm, (c1_rateLimiter_before_cache cxService cxReq cxPg 10).1 hm⟩

/-- C6 (amended): serving a cache hit mutates the stored entry through the
shared response pointer — after a cache-served `Complete`, the entry at the
request's key holds the very response returned, its cache-served flag now
true, and any later successful `get` of that key returns a response whose
flag is true regardless of the value stored at put time. -/
theorem c6_hit_mutates_stored_entry (s : CompletionService)
    (req : CompletionRequest) (pg : ProjectGetter) (now : Int)
    (r : CompletionResponse)
    (hok : (s.Complete req pg now).1 = Except.ok r)
    (hcr : r.CachedResult = true) :
    ∃ entry, mapLookup (s.Complete req pg now).2.1.cache.entries (cacheKey req)
        = some entry
      ∧ entry.Response = r
      ∧ entry.Response.CachedResult = true
      ∧ ∀ (fc2 : String) (now2 : Int) (r2 : CompletionResponse),
          Cache.Get (s.Complete req pg now).2.1.cache req fc2 now2 = some r2 →
            r2.CachedResult = true := by
  obtain ⟨fc, cached, -, -, hcg, hr, hcomp, -⟩ :=
    complete_cached_inversion s req pg now r hok hcr
  obtain ⟨entry0, hl0, hresp0⟩ := cacheGet_some_entry hcg
  have hcache : (s.Complete req pg now).2.1.cache
      = { s.cache with entries := markEntryCached s.cache.entries (cacheKey req) } := by
    rw [hcomp]
  have hlookup : mapLookup (s.Complete req pg now).2.1.cache.entries (cacheKey req)
      = some ({ entry0 with
          Response := { entry0.Response with CachedResult := true } }) := by
    rw [hcache]
    show mapLookup (markEntryCached s.cache.entries (cacheKey req)) (cacheKey req) = _
    rw [mapLookup_markEntryCached, hl0]
    rfl
  refine ⟨{ entry0 with Response := { entry0.Response with CachedResult := true } },
    hlookup, ?_, rfl, ?_⟩
  · show { entry0.Response with CachedResult := true } = r
    rw [hresp0]
    exact hr.symm
  · intro fc2 now2 r2 h2
    obtain ⟨e2, hl2, hresp2⟩ := cacheGet_some_entry h2
    rw [hlookup, Option.some.injEq] at hl2
    rw [← hresp2, ← hl2]

/-- C6 counterexample: the entry was stored at put time with a false
cache-served flag, yet after one cache-served `Complete` the stored entry's
flag is true and a second `get` returns a flag unequal to the stored-at-put
value. -/
theorem c6_counterexample :
    sampleResp.CachedResult = false
  ∧ (cxService.Complete cxReq cxPg 10).1
      = Except.ok ({ sampleResp with CachedResult := true })
  ∧ mapLookup (cxService.Complete cxReq cxPg 10).2.1.cache.entries (cacheKey cxReq)
      = some
        { Response := { sampleResp with CachedResult := true }
          CreatedAt := 0
          FileHash := hashContent "package main" }
  ∧ Cache.Get (cxService.Complete cxReq cxPg 10).2.1.cache cxReq "package main" 20
      = some ({ sampleResp with CachedResult := true })
  ∧ ({ sampleResp with CachedResult := true } : CompletionResponse).CachedResult
      ≠ sampleResp.CachedResult :=
  ⟨rfl, rfl, rfl, rfl, by decide⟩

/-- C6 witness: the amended theorem applied to the concrete cache-served
run. -/
theorem c6_witness :
    ((cxService.Complete cxReq cxPg 10).1
        = Except.ok ({ sampleResp with CachedResult := true })
      ∧ ({ sampleResp with CachedResult := true } : CompletionResponse).CachedResult
        = true)
  ∧ ∃ entry, mapLookup (cxService.Complete cxReq cxPg 10).2.1.cache.entries
        (cacheKey cxReq) = some entry
      ∧ entry.Response = { sampleResp with CachedResult := true }
      ∧ entry.Response.CachedResult = true
      ∧ ∀ (fc2 : String) (now2 : Int) (r2 : CompletionResponse),
          Cache.Get (cxService.Complete cxReq cxPg 10).2.1.cache cxReq fc2 now2
            = some r2 → r2.CachedResult = true :=
  ⟨⟨rfl, rfl⟩,
   c6_hit_mutates_stored_entry cxService cxReq cxPg 10
     ({ sampleResp with CachedResult := true }) rfl rfl⟩

end Smartcomplete
